import Mathlib

/-!
# TCP Westwood with bandwidth-and-RTT based threshold (tcp-westwood.cc)

A shallow embedding of `TcpWestwood` from
`ns-3.26/src/internet/model/tcp-westwood.cc`.

Conventions of the embedding.

* A `double` is a rational number, and the rounding of floating-point
  arithmetic is explicit: `roundDouble` rounds to the nearest binary64 value,
  ties to even.  The Tustin filter of `EstimateBW` is evaluated with it;
  `GetSsThresh` takes the rounding as a parameter `rnd`, applied to the result
  of every operation on doubles, so that `roundDouble` gives the binary64
  evaluation and `id` the evaluation in exact arithmetic.  The quotient that
  `EstimateBW` assigns to `m_currentBW` and the seconds that `PktsAcked`
  assigns to `m_prevMaxRtt` are kept exact; where they are read as doubles
  again they are rounded, and the filter takes its sample from the quotient
  computed in doubles.
* Every division whose divisor is zero, and every `double → uint32_t`
  conversion whose truncated operand is outside `[0, 2^32)`, makes the
  enclosing computation undefined (`none`).  In IEEE arithmetic a zero divisor
  in `GetSsThresh` yields an infinity or a NaN that reaches the
  `uint32_t (...)` conversion, which C++ leaves undefined for such operands,
  so `none` is exactly the undefined outcome.
* `uint32_t` values are natural numbers, reduced `% 2^32` where the code
  computes with them; `int m_ackedSegments` is an integer wrapped to 32 bits.
* `std::pow` is a parameter of `GetSsThresh`.
* Members that a constructor does not initialise take their value from an
  explicit `Uninit` argument.
-/

namespace TcpWestwoodBBE

/-! ## Collaborating types -/

/-- Modelled from the spec: the `Time` class is not part of the source file.
A duration is a signed count of nanoseconds (the default resolution). -/
abbrev Time := Int

/-- Modelled from the spec: `Time::IsZero`, true exactly for the zero
duration. -/
def IsZero (t : Time) : Bool := decide (t = 0)

/-- Modelled from the spec: `Time::GetSeconds`, the duration in seconds as a
`double`. -/
def GetSeconds (t : Time) : ℚ := (t : ℚ) / 1000000000

/-- Modelled from the spec: the connection snapshot (`TcpSocketState`, declared
outside the source file): segment size and congestion-window size in bytes.
Both are `uint32_t` values; `m_cWnd` enters the threshold formula as the
number it holds, so that `m_cWnd / currentRTT` is a quotient of doubles. -/
structure TcpSocketState where
  m_segmentSize : Nat
  m_cWnd : Nat
  deriving DecidableEq, Repr

/-- The enumeration `TcpWestwood::ProtocolType`. -/
inductive ProtocolType where
  | WESTWOOD
  | WESTWOODPLUS
  deriving DecidableEq, Repr

/-- The enumeration `TcpWestwood::FilterType`. -/
inductive FilterType where
  | NONE
  | TUSTIN
  deriving DecidableEq, Repr

/-- Modelled from the spec: the scheduling facility (`Simulator::Schedule`,
`EventId`).  An armed one-shot invocation `EstimateBW (rtt, tcb)`: the delay
it was armed with and the captured `rtt`.  The captured `tcb` is a pointer, so
the socket state is read when the event runs. -/
structure BwEstimateEvent where
  delay : Time
  rtt : Time
  deriving DecidableEq, Repr

/-- The data members of `TcpWestwood`, as the constructors and methods use
them.  `m_ackedSegments` is a 32-bit integer counter; `m_bwEstimateEvent` is
`none` when the `EventId` refers to no pending event. -/
structure TcpWestwood where
  m_currentBW : ℚ
  m_lastSampleBW : ℚ
  m_lastBW : ℚ
  m_minRtt : Time
  m_maxRtt : Time
  m_curRtt : Time
  m_prevMaxRtt : ℚ
  m_pType : ProtocolType
  m_fType : FilterType
  m_ackedSegments : Int
  m_IsCount : Bool
  m_bwEstimateEvent : Option BwEstimateEvent
  deriving DecidableEq

/-- The indeterminate contents of the scalar members that a constructor's
initialiser list leaves out. -/
structure Uninit where
  prevMaxRtt : ℚ
  ackedSegments : Int

/-! ## Machine arithmetic -/

/-- Conversion of an integer to `int` (two's complement, 32 bits). -/
def toInt32 (x : Int) : Int := (x + 2147483648) % 4294967296 - 2147483648

/-- Conversion of an integer to `uint32_t`. -/
def wrapU32 (x : Int) : Int := x % 4294967296

/-- Division of doubles; a zero divisor makes the computation undefined. -/
def fdiv (a b : ℚ) : Option ℚ := if b = 0 then none else some (a / b)

/-- The conversion `uint32_t (x)` of a double: truncation toward zero,
undefined when the truncated value is not a `uint32_t`. -/
def toUint32 (x : ℚ) : Option Nat :=
  if -1 < x ∧ x < 4294967296 then some (Int.toNat ⌊x⌋) else none

/-- A concrete power function for evaluating `GetSsThresh` on examples; it
is the true power whenever the exponent is an integer. -/
def powFloor (b x : ℚ) : ℚ := b ^ ⌊x⌋

/-- The integer nearest to `q`; a tie goes to the even neighbour. -/
def roundHalfEven (q : ℚ) : Int :=
  let f := ⌊q⌋
  let r := q - f
  if r < 1 / 2 then f else if 1 / 2 < r then f + 1 else if f % 2 = 0 then f else f + 1

/-- The number of times `n` can be halved before it drops below 2, counting
at most `fuel` halvings: `⌊log₂ n⌋` when `1 ≤ n ≤ fuel`. -/
def log2Fuel : Nat → Nat → Nat
  | 0, _ => 0
  | fuel + 1, n => if n < 2 then 0 else log2Fuel fuel (n / 2) + 1

/-- The binary exponent of a positive rational `a`: the integer `e` with
`2 ^ e ≤ a < 2 ^ (e + 1)`. -/
def ilog2 (a : ℚ) : Int :=
  let e0 : Int := (log2Fuel a.num.natAbs a.num.natAbs : Int) - (log2Fuel a.den a.den : Int)
  if a < (2 : ℚ) ^ e0 then e0 - 1 else e0

/-- Rounding of a real number to `double` (IEEE 754 binary64, round to
nearest, ties to even): 53 significant bits, and below the least normal
exponent `-1022` the spacing `2 ^ (-1074)` of the subnormal numbers.  The
exponent is not bounded above: no magnitude near `2 ^ 1024` arises from the
32-bit counts and nanosecond durations that the estimator computes with. -/
def roundDouble (x : ℚ) : ℚ :=
  if x = 0 then 0
  else
    let e : Int := max (ilog2 |x|) (-1022)
    let ulp : ℚ := (2 : ℚ) ^ (e - 52)
    (roundHalfEven (x / ulp) : ℚ) * ulp

/-- Division of doubles with the quotient rounded by `rnd`; a zero divisor
makes the computation undefined. -/
def rdiv (rnd : ℚ → ℚ) (a b : ℚ) : Option ℚ := if b = 0 then none else some (rnd (a / b))

/-- The power function `powFloor` with its value rounded to `double`: the
correctly rounded power whenever the exponent is an integer. -/
def powDouble (b x : ℚ) : ℚ := roundDouble (powFloor b x)

/-! ## Constructors and Fork -/

/-- The default constructor `TcpWestwood::TcpWestwood (void)`.  `m_pType` and
`m_fType` are set from the `ProtocolType` and `FilterType` attributes;
`m_prevMaxRtt` is not initialised. -/
def TcpWestwood.ctor (pType : ProtocolType) (fType : FilterType) (u : Uninit) :
    TcpWestwood :=
  { m_currentBW := 0
    m_lastSampleBW := 0
    m_lastBW := 0
    m_minRtt := 0
    m_maxRtt := 0
    m_curRtt := 0
    m_prevMaxRtt := u.prevMaxRtt
    m_pType := pType
    m_fType := fType
    m_ackedSegments := 0
    m_IsCount := false
    m_bwEstimateEvent := none }

/-- The copy constructor `TcpWestwood::TcpWestwood (const TcpWestwood& sock)`.
Its initialiser list names neither `m_ackedSegments` nor `m_prevMaxRtt`
(left indeterminate) nor `m_bwEstimateEvent` (default-constructed). -/
def TcpWestwood.copyCtor (sock : TcpWestwood) (u : Uninit) : TcpWestwood :=
  { m_currentBW := sock.m_currentBW
    m_lastSampleBW := sock.m_lastSampleBW
    m_lastBW := sock.m_lastBW
    m_minRtt := 0
    m_maxRtt := 0
    m_curRtt := 0
    m_prevMaxRtt := u.prevMaxRtt
    m_pType := sock.m_pType
    m_fType := sock.m_fType
    m_ackedSegments := u.ackedSegments
    m_IsCount := sock.m_IsCount
    m_bwEstimateEvent := none }

/-- The method `TcpWestwood::Fork`: the object after the call paired with the new
object `CreateObject<TcpWestwood> (*this)`. -/
def TcpWestwood.Fork (sock : TcpWestwood) (u : Uninit) : TcpWestwood × TcpWestwood :=
  (sock, TcpWestwood.copyCtor sock u)

/-! ## Bandwidth estimation -/

/-- The method `TcpWestwood::EstimateBW`.  `none` is the failure of
`NS_ASSERT (!rtt.IsZero ())`.  The Tustin filter is evaluated in binary64:
the constant `alpha` is the double nearest to 0.9, `sample_bwe` is the double
that the code's `m_currentBW` holds at that point, the quotient of the 32-bit
product by the double `rtt.GetSeconds ()`, and every operation of the filter
rounds. -/
def TcpWestwood.EstimateBW (sock : TcpWestwood) (rtt : Time) (tcb : TcpSocketState) :
    Option TcpWestwood :=
  if IsZero rtt then none
  else
    let sample : ℚ :=
      ((wrapU32 (sock.m_ackedSegments * (tcb.m_segmentSize : Int)) : Int) : ℚ) / GetSeconds rtt
    let s1 : TcpWestwood := { sock with m_currentBW := sample }
    let s2 : TcpWestwood :=
      if s1.m_pType = ProtocolType.WESTWOODPLUS then { s1 with m_IsCount := false } else s1
    let s3 : TcpWestwood := { s2 with m_ackedSegments := 0 }
    let alpha : ℚ := roundDouble 0.9
    match s3.m_fType with
    | FilterType.NONE => some s3
    | FilterType.TUSTIN =>
      let sample_bwe : ℚ :=
        roundDouble (((wrapU32 (sock.m_ackedSegments * (tcb.m_segmentSize : Int)) : Int) : ℚ) /
          roundDouble (GetSeconds rtt))
      let bw : ℚ :=
        roundDouble (roundDouble (alpha * s3.m_lastBW) +
          roundDouble (roundDouble (1 - alpha) *
            roundDouble (roundDouble (sample_bwe + s3.m_lastSampleBW) / 2)))
      some { s3 with m_currentBW := bw, m_lastSampleBW := sample_bwe, m_lastBW := bw }

/-- The method `TcpWestwood::PktsAcked`. -/
def TcpWestwood.PktsAcked (sock : TcpWestwood) (tcb : TcpSocketState) (packetsAcked : Nat)
    (rtt : Time) : Option TcpWestwood :=
  if IsZero rtt then some sock
  else
    let s1 : TcpWestwood :=
      { sock with m_ackedSegments := toInt32 (sock.m_ackedSegments + (packetsAcked : Int)) }
    let s2 : TcpWestwood :=
      if IsZero s1.m_minRtt then { s1 with m_minRtt := rtt }
      else if rtt < s1.m_minRtt then { s1 with m_minRtt := rtt }
      else s1
    let s3 : TcpWestwood :=
      if IsZero s2.m_maxRtt then { s2 with m_maxRtt := rtt, m_prevMaxRtt := GetSeconds rtt }
      else if rtt > s2.m_maxRtt then
        { s2 with m_prevMaxRtt := GetSeconds s2.m_maxRtt, m_maxRtt := rtt }
      else s2
    let s4 : TcpWestwood := { s3 with m_curRtt := rtt }
    match s4.m_pType with
    | ProtocolType.WESTWOOD => TcpWestwood.EstimateBW s4 rtt tcb
    | ProtocolType.WESTWOODPLUS =>
      if !(IsZero rtt || s4.m_IsCount) then
        some { s4 with m_IsCount := true, m_bwEstimateEvent := some ⟨rtt, rtt⟩ }
      else some s4

/-- The simulator running the event held in `m_bwEstimateEvent`, if any: the
scheduled `EstimateBW (rtt, tcb)` with the captured `rtt`. -/
def TcpWestwood.RunBwEstimateEvent (sock : TcpWestwood) (tcb : TcpSocketState) :
    Option TcpWestwood :=
  match sock.m_bwEstimateEvent with
  | none => some sock
  | some ev => TcpWestwood.EstimateBW { sock with m_bwEstimateEvent := none } ev.rtt tcb

/-! ## Slow-start threshold -/

/-- The method `TcpWestwood::GetSsThresh`.  `rnd` is the rounding of doubles:
it is applied to every value read as a `double` and to the result of every
floating-point operation (`roundDouble` for binary64, `id` for exact
arithmetic); the constants 10, 0.25 and 1 are doubles as they stand.  `pow`
stands for `std::pow`. -/
def TcpWestwood.GetSsThresh (rnd : ℚ → ℚ) (pow : ℚ → ℚ → ℚ) (sock : TcpWestwood)
    (tcb : TcpSocketState) (_bytesInFlight : Nat) : Option Nat :=
  let alpha : ℚ := 10
  let beta : ℚ := 0.25
  let e : ℚ := rnd 2.71
  let currentRTT : ℚ := rnd (GetSeconds sock.m_curRtt)
  let maxRTT : ℚ :=
    rnd (rnd (beta * rnd (GetSeconds sock.m_maxRtt)) + rnd (rnd (1 - beta) * rnd sock.m_prevMaxRtt))
  let minRTT : ℚ := rnd (GetSeconds sock.m_minRtt)
  let dMax : ℚ := rnd (maxRTT - minRTT)
  let d : ℚ := rnd (currentRTT - minRTT)
  (if dMax ≠ 0 then (rdiv rnd d dMax).bind (fun x => rdiv rnd 1 (pow e (rnd (x * alpha))))
   else some 1).bind fun u =>
  (rdiv rnd (tcb.m_cWnd : ℚ) currentRTT).bind fun r =>
  let ere : ℚ := rnd (rnd (u * rnd sock.m_currentBW) + rnd (rnd (1 - u) * r))
  (rdiv rnd dMax (rnd (d + dMax))).bind fun q =>
  (toUint32 (rnd (rnd (currentRTT * q) * ere))).bind fun ssthresh =>
  if tcb.m_cWnd > ssthresh ∧ ssthresh ≠ 0 then some ssthresh
  else
    (toUint32 (rnd (rnd sock.m_currentBW * rnd (GetSeconds sock.m_minRtt)))).bind fun fb =>
    some (max ((2 * tcb.m_segmentSize) % 4294967296) fb)

/-! ## Executions -/

/-- One event delivered to the estimator: an acknowledgment, or the
simulator running the scheduled bandwidth estimation. -/
inductive Step where
  | ack (tcb : TcpSocketState) (packetsAcked : Nat) (rtt : Time)
  | fire (tcb : TcpSocketState)

/-- The effect of one event. -/
def TcpWestwood.step (sock : TcpWestwood) : Step → Option TcpWestwood
  | Step.ack tcb n rtt => sock.PktsAcked tcb n rtt
  | Step.fire tcb => sock.RunBwEstimateEvent tcb

/-- The effect of a sequence of events, in order. -/
def TcpWestwood.run (sock : TcpWestwood) : List Step → Option TcpWestwood
  | [] => some sock
  | st :: rest => (sock.step st).bind fun s => s.run rest

/-- An acknowledgment carries a positive RTT; a timer event is always
admissible. -/
def Step.valid : Step → Bool
  | Step.ack _ _ rtt => decide (0 < rtt)
  | Step.fire _ => true

/-- The event is an acknowledgment. -/
def Step.isAck : Step → Bool
  | Step.ack _ _ _ => true
  | Step.fire _ => false

/-- Every acknowledgment of the trace carries a positive RTT. -/
def ValidTrace (tr : List Step) : Prop := ∀ st ∈ tr, st.valid = true

/-! ## The threshold formula in the words of the specification -/

/-- The specification's `dMax = 0.25 * maxRtt + 0.75 * prevMaxRtt - minRtt`. -/
def specDMax (s : TcpWestwood) : ℚ :=
  0.25 * GetSeconds s.m_maxRtt + 0.75 * s.m_prevMaxRtt - GetSeconds s.m_minRtt

/-- The specification's `d = curRtt - minRtt`. -/
def specD (s : TcpWestwood) : ℚ := GetSeconds s.m_curRtt - GetSeconds s.m_minRtt

/-- The specification's weight `u`: 1 if `dMax = 0`, else
`1 / 2.71 ^ ((d / dMax) * 10)`. -/
def specU (pow : ℚ → ℚ → ℚ) (s : TcpWestwood) : ℚ :=
  if specDMax s = 0 then 1 else 1 / pow 2.71 ((specD s / specDMax s) * 10)

/-- The specification's `ere = u * currentBandwidthEstimate + (1 - u) * (cwnd / currentRTT)`. -/
def specEre (pow : ℚ → ℚ → ℚ) (s : TcpWestwood) (tcb : TcpSocketState) : ℚ :=
  specU pow s * s.m_currentBW + (1 - specU pow s) * ((tcb.m_cWnd : ℚ) / GetSeconds s.m_curRtt)

/-- The specification's `dMax = 0.25 * maxRtt + 0.75 * prevMaxRtt - minRtt`,
evaluated in floating point with rounding `rnd`. -/
def specDMaxFp (rnd : ℚ → ℚ) (s : TcpWestwood) : ℚ :=
  rnd (rnd (rnd (0.25 * rnd (GetSeconds s.m_maxRtt)) + rnd (0.75 * rnd s.m_prevMaxRtt)) -
    rnd (GetSeconds s.m_minRtt))

/-- The specification's `d = curRtt - minRtt`, evaluated in floating point
with rounding `rnd`. -/
def specDFp (rnd : ℚ → ℚ) (s : TcpWestwood) : ℚ :=
  rnd (rnd (GetSeconds s.m_curRtt) - rnd (GetSeconds s.m_minRtt))

/-- The specification's weight `u`: 1 if `dMax = 0`, else
`1 / 2.71 ^ ((d / dMax) * 10)`, evaluated in floating point with rounding
`rnd`; it has no value where a divisor is zero. -/
def specUFp (rnd : ℚ → ℚ) (pow : ℚ → ℚ → ℚ) (s : TcpWestwood) : Option ℚ :=
  if specDMaxFp rnd s = 0 then some 1
  else (rdiv rnd (specDFp rnd s) (specDMaxFp rnd s)).bind fun x =>
    rdiv rnd 1 (pow (rnd 2.71) (rnd (x * 10)))

/-- The specification's
`ere = u * currentBandwidthEstimate + (1 - u) * (cwnd / currentRTT)`,
evaluated in floating point with rounding `rnd`. -/
def specEreFp (rnd : ℚ → ℚ) (pow : ℚ → ℚ → ℚ) (s : TcpWestwood) (tcb : TcpSocketState) :
    Option ℚ :=
  (specUFp rnd pow s).bind fun u =>
  (rdiv rnd (tcb.m_cWnd : ℚ) (rnd (GetSeconds s.m_curRtt))).bind fun r =>
  some (rnd (rnd (u * rnd s.m_currentBW) + rnd (rnd (1 - u) * r)))

/-- The specification's
`rawThreshold = floor (currentRTT * (dMax / (d + dMax)) * ere)`, evaluated in
floating point with rounding `rnd`: a threshold in bytes, an unsigned 32-bit
value.  It has no value where a divisor is zero or the floor is not such a
value. -/
def specRawThresholdFp (rnd : ℚ → ℚ) (pow : ℚ → ℚ → ℚ) (s : TcpWestwood)
    (tcb : TcpSocketState) : Option Nat :=
  (specEreFp rnd pow s tcb).bind fun ere =>
  (rdiv rnd (specDMaxFp rnd s) (rnd (specDFp rnd s + specDMaxFp rnd s))).bind fun q =>
  toUint32 (rnd (rnd (rnd (GetSeconds s.m_curRtt) * q) * ere))

/-- The specification's fallback
`max (2 * segmentSize, floor (currentBandwidthEstimate * minRTT))`, the
product evaluated in floating point with rounding `rnd`. -/
def specFallbackFp (rnd : ℚ → ℚ) (s : TcpWestwood) (tcb : TcpSocketState) : Option Nat :=
  (toUint32 (rnd (rnd s.m_currentBW * rnd (GetSeconds s.m_minRtt)))).map fun fb =>
    max (2 * tcb.m_segmentSize) fb

/-- No RTT sample has been recorded: `m_minRtt` and `m_maxRtt` are unset. -/
def RttUnset (s : TcpWestwood) : Prop := s.m_minRtt = 0 ∧ s.m_maxRtt = 0

/-- A positive RTT sample has been recorded and the three RTT members are in
order. -/
def RttOrdered (s : TcpWestwood) : Prop :=
  0 < s.m_minRtt ∧ s.m_minRtt ≤ s.m_curRtt ∧ s.m_curRtt ≤ s.m_maxRtt

/-- A pending bandwidth-estimation event carries a non-zero `rtt`. -/
def EventOk (s : TcpWestwood) : Prop :=
  ∀ ev, s.m_bwEstimateEvent = some ev → ev.rtt ≠ 0

/-- The trace contains an acknowledgment. -/
def HasAck (tr : List Step) : Prop := ∃ st ∈ tr, st.isAck = true

/-- The state `PktsAcked` has built when it reaches the dispatch on
`m_pType`: segment counter and RTT members updated. -/
def ackTracked (s : TcpWestwood) (n : Nat) (rtt : Time) : TcpWestwood :=
  { s with
    m_ackedSegments := toInt32 (s.m_ackedSegments + (n : Int))
    m_minRtt := if s.m_minRtt = 0 then rtt else if rtt < s.m_minRtt then rtt else s.m_minRtt
    m_maxRtt := if s.m_maxRtt = 0 then rtt else if rtt > s.m_maxRtt then rtt else s.m_maxRtt
    m_prevMaxRtt := if s.m_maxRtt = 0 then GetSeconds rtt
      else if rtt > s.m_maxRtt then GetSeconds s.m_maxRtt else s.m_prevMaxRtt
    m_curRtt := rtt }

/-- The parent used to exercise `Fork`: a Westwood+ estimator that has
processed one acknowledgment, so that its bandwidth estimation is pending. -/
def pendingParent : TcpWestwood :=
  { m_currentBW := 0
    m_lastSampleBW := 0
    m_lastBW := 0
    m_minRtt := 50000000
    m_maxRtt := 50000000
    m_curRtt := 50000000
    m_prevMaxRtt := 1 / 20
    m_pType := ProtocolType.WESTWOODPLUS
    m_fType := FilterType.TUSTIN
    m_ackedSegments := 2
    m_IsCount := true
    m_bwEstimateEvent := some ⟨50000000, 50000000⟩ }

/-- A state with bandwidth estimate 1000000 bytes/s, minimum and current RTT
0.1 s, maximum RTT 0.2 s. -/
def megabyteState : TcpWestwood :=
  { m_currentBW := 1000000
    m_lastSampleBW := 0
    m_lastBW := 0
    m_minRtt := 100000000
    m_maxRtt := 200000000
    m_curRtt := 100000000
    m_prevMaxRtt := 1 / 5
    m_pType := ProtocolType.WESTWOOD
    m_fType := FilterType.NONE
    m_ackedSegments := 0
    m_IsCount := false
    m_bwEstimateEvent := none }

/-- The state that a fresh estimator with immediate sampling and the Tustin
filter reaches by acknowledgments of 4 segments of 1000 bytes at RTT 0.5 s and
then at RTT 1 s; its estimate is the double 959.9999999999998. -/
def slowedState : TcpWestwood :=
  { m_currentBW := 4222124650659839 / 4398046511104
    m_lastSampleBW := 4000
    m_lastBW := 4222124650659839 / 4398046511104
    m_minRtt := 500000000
    m_maxRtt := 1000000000
    m_curRtt := 1000000000
    m_prevMaxRtt := 1 / 2
    m_pType := ProtocolType.WESTWOOD
    m_fType := FilterType.TUSTIN
    m_ackedSegments := 0
    m_IsCount := false
    m_bwEstimateEvent := none }

/-- The state that a fresh estimator with immediate sampling and no filter
reaches by acknowledgments of one segment of 5639 bytes at RTT 125 ms and then
at RTT 85.9375 ms; its estimate is the quotient `5639 / 0.0859375`. -/
def fastState : TcpWestwood :=
  { m_currentBW := 721792 / 11
    m_lastSampleBW := 0
    m_lastBW := 0
    m_minRtt := 85937500
    m_maxRtt := 125000000
    m_curRtt := 85937500
    m_prevMaxRtt := 1 / 8
    m_pType := ProtocolType.WESTWOOD
    m_fType := FilterType.NONE
    m_ackedSegments := 0
    m_IsCount := false
    m_bwEstimateEvent := none }

/-- The raw bandwidth sample of `EstimateBW`, the double that
`m_ackedSegments * tcb->m_segmentSize / rtt.GetSeconds ()` yields: the local
`sample_bwe` of the Tustin filter. -/
def rawSample (s : TcpWestwood) (rtt : Time) (tcb : TcpSocketState) : ℚ :=
  roundDouble (((wrapU32 (s.m_ackedSegments * (tcb.m_segmentSize : Int)) : Int) : ℚ) /
    roundDouble (GetSeconds rtt))

/-- The two states agree on the members the filter reads and on the
configuration. -/
def SameFilter (s t : TcpWestwood) : Prop :=
  t.m_currentBW = s.m_currentBW ∧ t.m_lastBW = s.m_lastBW ∧
    t.m_lastSampleBW = s.m_lastSampleBW ∧ t.m_fType = s.m_fType ∧ t.m_pType = s.m_pType

/-- Every pending event carries a non-zero `rtt` that satisfies `P`. -/
def EventSat (P : Time → Prop) (s : TcpWestwood) : Prop :=
  ∀ ev, s.m_bwEstimateEvent = some ev → ev.rtt ≠ 0 ∧ P ev.rtt

/-- The RTT samples of the acknowledgments of a trace, in order. -/
def ackRtts : List Step → List Time
  | [] => []
  | Step.ack _ _ rtt :: rest => rtt :: ackRtts rest
  | Step.fire _ :: rest => ackRtts rest

/-- The RTT members summarise the positive samples `seen`: `m_minRtt` and
`m_maxRtt` are the least and the greatest of them, `m_curRtt` lies between,
and `m_prevMaxRtt` is, in seconds, a duration between `m_minRtt` and
`m_maxRtt`. -/
def RttHist (seen : List Time) (s : TcpWestwood) : Prop :=
  0 < s.m_minRtt ∧ s.m_minRtt ∈ seen ∧ s.m_maxRtt ∈ seen ∧
    (∀ r ∈ seen, s.m_minRtt ≤ r ∧ r ≤ s.m_maxRtt) ∧
    s.m_minRtt ≤ s.m_curRtt ∧ s.m_curRtt ≤ s.m_maxRtt ∧
    ∃ p : Time, s.m_prevMaxRtt = GetSeconds p ∧ s.m_minRtt ≤ p ∧ p ≤ s.m_maxRtt

/-- The local variable `dMax` of `GetSsThresh`, in exact arithmetic. -/
def TcpWestwood.GetSsThreshDMax (sock : TcpWestwood) : ℚ :=
  let beta : ℚ := 0.25
  let maxRTT : ℚ := beta * GetSeconds sock.m_maxRtt + (1 - beta) * sock.m_prevMaxRtt
  let minRTT : ℚ := GetSeconds sock.m_minRtt
  maxRTT - minRTT

/-- The local variable `d` of `GetSsThresh`, in exact arithmetic. -/
def TcpWestwood.GetSsThreshD (sock : TcpWestwood) : ℚ :=
  GetSeconds sock.m_curRtt - GetSeconds sock.m_minRtt

/-- The local variable `u` of `GetSsThresh`, in exact arithmetic. -/
def TcpWestwood.GetSsThreshU (pow : ℚ → ℚ → ℚ) (sock : TcpWestwood) : Option ℚ :=
  let alpha : ℚ := 10
  let e : ℚ := 2.71
  if sock.GetSsThreshDMax ≠ 0 then
    (fdiv sock.GetSsThreshD sock.GetSsThreshDMax).bind (fun x => fdiv 1 (pow e (x * alpha)))
  else some 1

/-- With enough fuel, `log2Fuel` is the integer binary logarithm. -/
theorem log2Fuel_spec (fuel : Nat) :
    ∀ n : Nat, 1 ≤ n → n ≤ fuel →
      2 ^ log2Fuel fuel n ≤ n ∧ n < 2 ^ (log2Fuel fuel n + 1) := by
  induction fuel with
  | zero =>
    intro n h1 h2
    omega
  | succ fuel ih =>
    intro n h1 h2
    unfold log2Fuel
    by_cases h : n < 2
    · rw [if_pos h]
      have : n = 1 := by omega
      subst this
      simp
    · rw [if_neg h]
      obtain ⟨a, b⟩ := ih (n / 2) (by omega) (by omega)
      rw [pow_succ, pow_succ]
      rw [pow_succ] at b
      constructor
      · omega
      · omega

/-- The binary exponent brackets its argument between consecutive powers of 2. -/
theorem ilog2_spec (a : ℚ) (ha : 0 < a) :
    (2 : ℚ) ^ ilog2 a ≤ a ∧ a < (2 : ℚ) ^ (ilog2 a + 1) := by
  have hnum : 0 < a.num := Rat.num_pos.mpr ha
  have hp1 : 1 ≤ a.num.natAbs := by omega
  have hq1 : 1 ≤ a.den := a.den_pos
  obtain ⟨p1, p2⟩ := log2Fuel_spec a.num.natAbs a.num.natAbs hp1 (le_refl _)
  obtain ⟨q1, q2⟩ := log2Fuel_spec a.den a.den hq1 (le_refl _)
  unfold ilog2
  simp only []
  generalize log2Fuel a.num.natAbs a.num.natAbs = lp at p1 p2 ⊢
  generalize log2Fuel a.den a.den = lq at q1 q2 ⊢
  have hP : ((a.num.natAbs : Nat) : ℚ) = (a.num : ℚ) := by
    rw [Nat.cast_natAbs, abs_of_pos hnum]
  have hA : a = (a.num.natAbs : ℚ) / (a.den : ℚ) := by
    rw [hP]
    exact (Rat.num_div_den a).symm
  have P1 : (2 : ℚ) ^ lp ≤ (a.num.natAbs : ℚ) := by exact_mod_cast p1
  have P2 : (a.num.natAbs : ℚ) < (2 : ℚ) ^ (lp + 1) := by exact_mod_cast p2
  have Q1 : (2 : ℚ) ^ lq ≤ (a.den : ℚ) := by exact_mod_cast q1
  have Q2 : (a.den : ℚ) < (2 : ℚ) ^ (lq + 1) := by exact_mod_cast q2
  have Qpos : (0 : ℚ) < (a.den : ℚ) := by exact_mod_cast a.den_pos
  have hlo : (2 : ℚ) ^ ((lp : Int) - (lq : Int) - 1) ≤ a := by
    have e : (2 : ℚ) ^ ((lp : Int) - (lq : Int) - 1) = (2 : ℚ) ^ lp / (2 : ℚ) ^ (lq + 1) := by
      rw [show (lp : Int) - (lq : Int) - 1 = (lp : Int) - ((lq + 1 : Nat) : Int) by push_cast; ring]
      rw [zpow_sub₀ (by norm_num : (2 : ℚ) ≠ 0), zpow_natCast, zpow_natCast]
    rw [e, hA]
    exact div_le_div₀ (by positivity) P1 Qpos (le_of_lt Q2)
  have hhi : a < (2 : ℚ) ^ ((lp : Int) - (lq : Int) + 1) := by
    have e : (2 : ℚ) ^ ((lp : Int) - (lq : Int) + 1) = (2 : ℚ) ^ (lp + 1) / (2 : ℚ) ^ lq := by
      rw [show (lp : Int) - (lq : Int) + 1 = ((lp + 1 : Nat) : Int) - (lq : Int) by push_cast; ring]
      rw [zpow_sub₀ (by norm_num : (2 : ℚ) ≠ 0), zpow_natCast, zpow_natCast]
    rw [e, hA]
    exact div_lt_div₀ P2 Q1 (by positivity) (by positivity)
  by_cases h : a < (2 : ℚ) ^ ((lp : Int) - (lq : Int))
  · rw [if_pos h]
    refine ⟨hlo, ?_⟩
    rw [sub_add_cancel]
    exact h
  · rw [if_neg h]
    exact ⟨not_lt.mp h, hhi⟩

theorem roundHalfEven_intCast (m : Int) : roundHalfEven (m : ℚ) = m := by
  unfold roundHalfEven
  simp

theorem roundHalfEven_sub_le (q : ℚ) : |(roundHalfEven q : ℚ) - q| ≤ 1 / 2 := by
  unfold roundHalfEven
  simp only []
  have h1 : (⌊q⌋ : ℚ) ≤ q := Int.floor_le q
  have h2 : q < (⌊q⌋ : ℚ) + 1 := Int.lt_floor_add_one q
  rw [abs_le]
  split_ifs with a b c
  · constructor <;> linarith
  · push_cast
    constructor <;> linarith
  · constructor <;> linarith
  · push_cast
    constructor <;> linarith

theorem roundDouble_zero : roundDouble 0 = 0 := by
  simp [roundDouble]

/-- A value of the form `n * 2 ^ (e - 52)` with `|n| ≤ 2 ^ 53` and
`-1022 ≤ e` is a double: rounding leaves it unchanged. -/
theorem roundDouble_of_grid (n e : Int) (hn : |n| ≤ 2 ^ 53) (he : -1022 ≤ e) :
    roundDouble ((n : ℚ) * (2 : ℚ) ^ (e - 52)) = (n : ℚ) * (2 : ℚ) ^ (e - 52) := by
  have h2 : (1 : ℚ) < 2 := by norm_num
  have h20 : (2 : ℚ) ≠ 0 := by norm_num
  by_cases hn0 : n = 0
  · subst hn0
    simp [roundDouble]
  have hu : (0 : ℚ) < (2 : ℚ) ^ (e - 52) := by positivity
  have hy0 : (n : ℚ) * (2 : ℚ) ^ (e - 52) ≠ 0 :=
    mul_ne_zero (by exact_mod_cast hn0) (ne_of_gt hu)
  have hypos : 0 < |(n : ℚ) * (2 : ℚ) ^ (e - 52)| := abs_pos.mpr hy0
  have hyabs : |(n : ℚ) * (2 : ℚ) ^ (e - 52)| = (|n| : Int) * (2 : ℚ) ^ (e - 52) := by
    rw [abs_mul, abs_of_pos hu]
    push_cast
    rfl
  obtain ⟨l1, -⟩ := ilog2_spec _ hypos
  unfold roundDouble
  rw [if_neg hy0]
  simp only []
  generalize ilog2 |(n : ℚ) * (2 : ℚ) ^ (e - 52)| = i at l1 ⊢
  -- the exponent chosen for the value is at most `e + 1`
  have hle : (2 : ℚ) ^ i ≤ (2 : ℚ) ^ (e + 1) := by
    refine le_trans l1 ?_
    rw [hyabs]
    have : ((|n| : Int) : ℚ) ≤ (2 : ℚ) ^ (53 : Nat) := by exact_mod_cast hn
    calc ((|n| : Int) : ℚ) * (2 : ℚ) ^ (e - 52)
        ≤ (2 : ℚ) ^ (53 : Nat) * (2 : ℚ) ^ (e - 52) := mul_le_mul_of_nonneg_right this (le_of_lt hu)
      _ = (2 : ℚ) ^ (e + 1) := by
        rw [← zpow_natCast, ← zpow_add₀ h20]
        congr 1
        push_cast
        ring
  have hi : i ≤ e + 1 := (zpow_le_zpow_iff_right₀ h2).mp hle
  have hint : ∃ m : Int, (n : ℚ) * (2 : ℚ) ^ (e - 52) / (2 : ℚ) ^ (max i (-1022) - 52) = (m : ℚ) := by
    rcases le_or_lt (max i (-1022)) e with hc | hc
    · refine ⟨n * 2 ^ (e - max i (-1022)).toNat, ?_⟩
      rw [mul_div_assoc, ← zpow_sub₀ h20]
      push_cast
      rw [← zpow_natCast, Int.toNat_of_nonneg (by omega)]
      congr 2
      ring
    · have hie : i = e + 1 := by
        rcases le_total i (-1022) with h | h
        · rw [max_eq_right h] at hc
          omega
        · rw [max_eq_left h] at hc
          omega
      have hmax : max i (-1022) = e + 1 := by
        rw [hie]
        exact max_eq_left (by omega)
      rw [hie, hyabs] at l1
      have hge : (2 : ℚ) ^ (53 : Nat) ≤ ((|n| : Int) : ℚ) := by
        have e1 : (2 : ℚ) ^ (e + 1) = (2 : ℚ) ^ (53 : Nat) * (2 : ℚ) ^ (e - 52) := by
          rw [← zpow_natCast, ← zpow_add₀ h20]
          congr 1
          push_cast
          ring
        rw [e1] at l1
        exact le_of_mul_le_mul_right l1 hu
      have hge2 : (2 : Int) ^ 53 ≤ |n| := by exact_mod_cast hge
      have habs : |n| = 2 ^ 53 := le_antisymm hn hge2
      rw [hmax, mul_div_assoc, ← zpow_sub₀ h20]
      rw [show e - 52 - (e + 1 - 52) = -1 by ring]
      rcases abs_eq (by positivity : (0 : Int) ≤ 2 ^ 53) |>.mp habs with h | h
      · refine ⟨2 ^ 52, ?_⟩
        rw [h]
        norm_num
      · refine ⟨-2 ^ 52, ?_⟩
        rw [h]
        norm_num
  obtain ⟨m, hm⟩ := hint
  rw [hm, roundHalfEven_intCast, ← hm]
  have hu2 : (2 : ℚ) ^ (max i (-1022) - 52) ≠ 0 := by positivity
  field_simp

/-- Rounding a double again leaves it unchanged. -/
theorem roundDouble_idem (x : ℚ) : roundDouble (roundDouble x) = roundDouble x := by
  by_cases h0 : x = 0
  · subst h0
    simp [roundDouble]
  have h2 : (1 : ℚ) < 2 := by norm_num
  have h20 : (2 : ℚ) ≠ 0 := by norm_num
  have hx : 0 < |x| := abs_pos.mpr h0
  obtain ⟨-, l2⟩ := ilog2_spec |x| hx
  have hval : roundDouble x =
      (roundHalfEven (x / (2 : ℚ) ^ (max (ilog2 |x|) (-1022) - 52)) : ℚ) *
        (2 : ℚ) ^ (max (ilog2 |x|) (-1022) - 52) := by
    unfold roundDouble
    rw [if_neg h0]
  rw [hval]
  generalize ilog2 |x| = i at l2 ⊢
  apply roundDouble_of_grid _ _ _ (le_max_right _ _)
  have hu : (0 : ℚ) < (2 : ℚ) ^ (max i (-1022) - 52) := by positivity
  have herr := roundHalfEven_sub_le (x / (2 : ℚ) ^ (max i (-1022) - 52))
  generalize roundHalfEven (x / (2 : ℚ) ^ (max i (-1022) - 52)) = n at herr ⊢
  have hq : |x / (2 : ℚ) ^ (max i (-1022) - 52)| < (2 : ℚ) ^ (53 : Nat) := by
    rw [abs_div, abs_of_pos hu, div_lt_iff₀ hu]
    have : (2 : ℚ) ^ (53 : Nat) * (2 : ℚ) ^ (max i (-1022) - 52) = (2 : ℚ) ^ (max i (-1022) + 1) := by
      rw [← zpow_natCast, ← zpow_add₀ h20]
      congr 1
      push_cast
      ring
    rw [this]
    refine lt_of_lt_of_le l2 (zpow_le_zpow_right₀ (le_of_lt h2) ?_)
    have := le_max_left i (-1022)
    omega
  have hnq : |(n : ℚ)| < (2 : ℚ) ^ (53 : Nat) + 1 := by
    have h3 : |(n : ℚ)| ≤ |(n : ℚ) - x / (2 : ℚ) ^ (max i (-1022) - 52)| +
        |x / (2 : ℚ) ^ (max i (-1022) - 52)| := by
      have := abs_add ((n : ℚ) - x / (2 : ℚ) ^ (max i (-1022) - 52))
        (x / (2 : ℚ) ^ (max i (-1022) - 52))
      simpa using this
    linarith
  have hnz : |n| < 9007199254740993 := by
    have h4 : ((|n| : Int) : ℚ) < 9007199254740993 := by
      push_cast
      norm_num at hnq
      exact hnq
    exact_mod_cast h4
  have h5 : |n| ≤ 9007199254740992 := by omega
  norm_num
  exact h5

/-! ## Basic facts about the operations -/

theorem EstimateBW_frame (s : TcpWestwood) (rtt : Time) (tcb : TcpSocketState) (h : rtt ≠ 0) :
    ∃ s2, s.EstimateBW rtt tcb = some s2 ∧ s2.m_minRtt = s.m_minRtt ∧
      s2.m_maxRtt = s.m_maxRtt ∧ s2.m_curRtt = s.m_curRtt ∧
      s2.m_prevMaxRtt = s.m_prevMaxRtt ∧ s2.m_bwEstimateEvent = s.m_bwEstimateEvent ∧
      s2.m_pType = s.m_pType ∧ s2.m_fType = s.m_fType ∧ s2.m_ackedSegments = 0 := by
  unfold TcpWestwood.EstimateBW
  simp only [IsZero, h, decide_False, Bool.false_eq_true, if_false]
  cases hf : s.m_fType <;> cases hp : s.m_pType <;> simp [hf, hp]

theorem PktsAcked_eq (s : TcpWestwood) (tcb : TcpSocketState) (n : Nat) (rtt : Time)
    (h : rtt ≠ 0) :
    s.PktsAcked tcb n rtt =
      match s.m_pType with
      | ProtocolType.WESTWOOD => (ackTracked s n rtt).EstimateBW rtt tcb
      | ProtocolType.WESTWOODPLUS =>
        if s.m_IsCount = true then some (ackTracked s n rtt)
        else some { ackTracked s n rtt with
                    m_IsCount := true, m_bwEstimateEvent := some ⟨rtt, rtt⟩ } := by
  unfold TcpWestwood.PktsAcked ackTracked
  simp only [IsZero, h, decide_False, Bool.false_eq_true, if_false]
  by_cases h1 : s.m_minRtt = 0 <;> by_cases h2 : s.m_maxRtt = 0 <;>
    by_cases h3 : rtt < s.m_minRtt <;> by_cases h4 : rtt > s.m_maxRtt <;>
    simp only [h1, h2, h3, h4, decide_True, decide_False, if_true, if_false,
      Bool.false_eq_true] <;>
    cases s.m_pType <;> cases s.m_IsCount <;> simp

theorem PktsAcked_rtt (s : TcpWestwood) (tcb : TcpSocketState) (n : Nat) (rtt : Time)
    (h : rtt ≠ 0) :
    ∃ s2, s.PktsAcked tcb n rtt = some s2 ∧ s2.m_curRtt = rtt ∧
      s2.m_minRtt = (if s.m_minRtt = 0 then rtt else if rtt < s.m_minRtt then rtt
        else s.m_minRtt) ∧
      s2.m_maxRtt = (if s.m_maxRtt = 0 then rtt else if rtt > s.m_maxRtt then rtt
        else s.m_maxRtt) ∧
      s2.m_prevMaxRtt = (if s.m_maxRtt = 0 then GetSeconds rtt
        else if rtt > s.m_maxRtt then GetSeconds s.m_maxRtt else s.m_prevMaxRtt) ∧
      s2.m_pType = s.m_pType ∧ s2.m_fType = s.m_fType := by
  rw [PktsAcked_eq s tcb n rtt h]
  cases hp : s.m_pType
  · obtain ⟨s2, e, a, b, c, d, -, f, g, -⟩ := EstimateBW_frame (ackTracked s n rtt) rtt tcb h
    refine ⟨s2, e, ?_, ?_, ?_, ?_, ?_, ?_⟩
    · rw [c]; rfl
    · rw [a]; rfl
    · rw [b]; rfl
    · rw [d]; rfl
    · rw [f]; exact hp
    · rw [g]; rfl
  · cases hc : s.m_IsCount
    · exact ⟨{ ackTracked s n rtt with
                m_IsCount := true, m_bwEstimateEvent := some ⟨rtt, rtt⟩ },
        by simp, rfl, rfl, rfl, rfl, hp, rfl⟩
    · exact ⟨ackTracked s n rtt, by simp, rfl, rfl, rfl, rfl, hp, rfl⟩

theorem PktsAcked_of_zero (s : TcpWestwood) (tcb : TcpSocketState) (n : Nat) :
    s.PktsAcked tcb n 0 = some s := by
  simp [TcpWestwood.PktsAcked, IsZero]

theorem PktsAcked_event (s s2 : TcpWestwood) (tcb : TcpSocketState) (n : Nat) (rtt : Time)
    (h : rtt ≠ 0) (he : s.PktsAcked tcb n rtt = some s2) :
    s2.m_bwEstimateEvent = s.m_bwEstimateEvent ∨
      s2.m_bwEstimateEvent = some ⟨rtt, rtt⟩ := by
  rw [PktsAcked_eq s tcb n rtt h] at he
  cases hp : s.m_pType
  · rw [hp] at he
    obtain ⟨s3, e, -, -, -, -, ev, -⟩ := EstimateBW_frame (ackTracked s n rtt) rtt tcb h
    simp only [] at he
    rw [e] at he
    cases he
    exact Or.inl ev
  · rw [hp] at he
    cases hc : s.m_IsCount
    · simp [hc] at he
      subst he
      exact Or.inr rfl
    · simp [hc] at he
      subst he
      exact Or.inl rfl

theorem RunBwEstimateEvent_frame (s : TcpWestwood) (tcb : TcpSocketState) (he : EventOk s) :
    ∃ s2, s.RunBwEstimateEvent tcb = some s2 ∧ s2.m_minRtt = s.m_minRtt ∧
      s2.m_maxRtt = s.m_maxRtt ∧ s2.m_curRtt = s.m_curRtt ∧
      s2.m_prevMaxRtt = s.m_prevMaxRtt ∧ s2.m_bwEstimateEvent = none ∧
      s2.m_pType = s.m_pType ∧ s2.m_fType = s.m_fType := by
  unfold TcpWestwood.RunBwEstimateEvent
  cases hev : s.m_bwEstimateEvent with
  | none => exact ⟨s, rfl, rfl, rfl, rfl, rfl, hev, rfl, rfl⟩
  | some ev =>
    obtain ⟨s2, e, a, b, c, d, f, g, k, -⟩ :=
      EstimateBW_frame { s with m_bwEstimateEvent := none } ev.rtt tcb (he ev hev)
    exact ⟨s2, e, a, b, c, d, f, g, k⟩

/-- One admissible event keeps the RTT members unset or ordered, never unsets
them, and an acknowledgment leaves them ordered. -/
theorem step_rtt (s : TcpWestwood) (st : Step) (hv : st.valid = true) (he : EventOk s)
    (hr : RttUnset s ∨ RttOrdered s) :
    ∃ s2, s.step st = some s2 ∧ EventOk s2 ∧ (RttUnset s2 ∨ RttOrdered s2) ∧
      (RttOrdered s → RttOrdered s2) ∧ (st.isAck = true → RttOrdered s2) := by
  cases st with
  | ack tcb n rtt =>
    have hpos : 0 < rtt := by simpa [Step.valid] using hv
    have hne : rtt ≠ 0 := ne_of_gt hpos
    obtain ⟨s2, e, c, a, b, -, -, -⟩ := PktsAcked_rtt s tcb n rtt hne
    have hev : EventOk s2 := by
      intro ev hev
      rcases PktsAcked_event s s2 tcb n rtt hne e with h1 | h1
      · exact he ev (h1 ▸ hev)
      · rw [h1] at hev
        cases hev
        exact hne
    have hord : RttOrdered s2 := by
      unfold RttOrdered
      rw [a, b, c]
      rcases hr with ⟨u1, u2⟩ | ⟨o1, o2, o3⟩
      · simp [u1, u2, hpos]
      · have n1 : s.m_minRtt ≠ 0 := ne_of_gt o1
        have n2 : s.m_maxRtt ≠ 0 := ne_of_gt (lt_of_lt_of_le o1 (le_trans o2 o3))
        simp only [n1, n2, if_false]
        split_ifs <;> refine ⟨?_, ?_, ?_⟩ <;> linarith
    exact ⟨s2, e, hev, Or.inr hord, fun _ => hord, fun _ => hord⟩
  | fire tcb =>
    obtain ⟨s2, e, a, b, c, -, f, -, -⟩ := RunBwEstimateEvent_frame s tcb he
    have hev : EventOk s2 := by
      intro ev hev
      rw [f] at hev
      cases hev
    have keep : RttOrdered s → RttOrdered s2 := by
      unfold RttOrdered
      rw [a, b, c]
      exact id
    refine ⟨s2, e, hev, ?_, keep, ?_⟩
    · rcases hr with ⟨u1, u2⟩ | o
      · exact Or.inl ⟨a.trans u1, b.trans u2⟩
      · exact Or.inr (keep o)
    · intro h
      simp [Step.isAck] at h

/-- A trace of admissible events runs to completion; the RTT members end
ordered if they started ordered or the trace holds an acknowledgment. -/
theorem run_rtt (tr : List Step) :
    ∀ s : TcpWestwood, ValidTrace tr → EventOk s → (RttUnset s ∨ RttOrdered s) →
      ∃ s2, s.run tr = some s2 ∧ EventOk s2 ∧ (RttUnset s2 ∨ RttOrdered s2) ∧
        (RttOrdered s → RttOrdered s2) ∧ (HasAck tr → RttOrdered s2) := by
  induction tr with
  | nil =>
    intro s _ he hr
    refine ⟨s, rfl, he, hr, id, ?_⟩
    rintro ⟨st, hst, -⟩
    cases hst
  | cons st rest ih =>
    intro s hv he hr
    obtain ⟨s1, e1, he1, hr1, k1, a1⟩ :=
      step_rtt s st (hv st (List.mem_cons_self _ _)) he hr
    obtain ⟨s2, e2, he2, hr2, k2, a2⟩ :=
      ih s1 (fun x hx => hv x (List.mem_cons_of_mem _ hx)) he1 hr1
    refine ⟨s2, ?_, he2, hr2, fun h => k2 (k1 h), ?_⟩
    · simp [TcpWestwood.run, e1, e2]
    · rintro ⟨x, hx, hax⟩
      rcases List.mem_cons.mp hx with rfl | hx
      · exact k2 (a1 hax)
      · exact a2 ⟨x, hx, hax⟩

theorem pendingParent_reached :
    (TcpWestwood.ctor ProtocolType.WESTWOODPLUS FilterType.TUSTIN ⟨0, 0⟩).PktsAcked
      ⟨1460, 14600⟩ 2 50000000 = some pendingParent := by
  rw [PktsAcked_eq _ _ _ _ (by decide)]
  norm_num [TcpWestwood.ctor, ackTracked, pendingParent, toInt32, GetSeconds]

/-- A Westwood+ estimator whose `m_IsCount` is set while no event is pending
never estimates again: every event leaves `m_currentBW`, the flag and the
empty event handle as they are. -/
theorem stuck_step (s : TcpWestwood) (st : Step) (hp : s.m_pType = ProtocolType.WESTWOODPLUS)
    (hc : s.m_IsCount = true) (he : s.m_bwEstimateEvent = none) :
    ∃ s2, s.step st = some s2 ∧ s2.m_pType = ProtocolType.WESTWOODPLUS ∧
      s2.m_IsCount = true ∧ s2.m_bwEstimateEvent = none ∧
      s2.m_currentBW = s.m_currentBW := by
  cases st with
  | ack tcb n rtt =>
    by_cases h : rtt = 0
    · subst h
      exact ⟨s, PktsAcked_of_zero s tcb n, hp, hc, he, rfl⟩
    · refine ⟨ackTracked s n rtt, ?_, hp, hc, he, rfl⟩
      simp only [TcpWestwood.step]
      rw [PktsAcked_eq s tcb n rtt h, hp]
      simp [hc]
  | fire tcb =>
    refine ⟨s, ?_, hp, hc, he, rfl⟩
    simp [TcpWestwood.step, TcpWestwood.RunBwEstimateEvent, he]

theorem stuck_run (tr : List Step) :
    ∀ s : TcpWestwood, s.m_pType = ProtocolType.WESTWOODPLUS → s.m_IsCount = true →
      s.m_bwEstimateEvent = none →
      ∃ s2, s.run tr = some s2 ∧ s2.m_IsCount = true ∧ s2.m_bwEstimateEvent = none ∧
        s2.m_currentBW = s.m_currentBW := by
  induction tr with
  | nil => exact fun s _ hc he => ⟨s, rfl, hc, he, rfl⟩
  | cons st rest ih =>
    intro s hp hc he
    obtain ⟨s1, e1, hp1, hc1, he1, b1⟩ := stuck_step s st hp hc he
    obtain ⟨s2, e2, hc2, he2, b2⟩ := ih s1 hp1 hc1 he1
    exact ⟨s2, by simp [TcpWestwood.run, e1, e2], hc2, he2, b2.trans b1⟩

theorem GetSeconds_eq_zero (t : Time) : GetSeconds t = 0 ↔ t = 0 := by
  unfold GetSeconds
  constructor
  · intro h
    have h2 : (t : ℚ) = 0 := by
      rcases div_eq_zero_iff.mp h with h1 | h1
      · exact h1
      · norm_num at h1
    exact_mod_cast h2
  · rintro rfl
    simp

/-- Where `1 - 0.25` is computed exactly, `GetSsThresh` converts nothing but the
specification's `rawThreshold`, then chooses between it and the fallback. -/
theorem GetSsThresh_spec (rnd : ℚ → ℚ) (pow : ℚ → ℚ → ℚ) (s : TcpWestwood)
    (tcb : TcpSocketState) (b : Nat) (h75 : rnd (1 - 0.25) = 0.75) :
    s.GetSsThresh rnd pow tcb b =
      (specRawThresholdFp rnd pow s tcb).bind fun ssthresh =>
        if tcb.m_cWnd > ssthresh ∧ ssthresh ≠ 0 then some ssthresh
        else (toUint32 (rnd (rnd s.m_currentBW * rnd (GetSeconds s.m_minRtt)))).bind fun fb =>
          some (max ((2 * tcb.m_segmentSize) % 4294967296) fb) := by
  unfold TcpWestwood.GetSsThresh specRawThresholdFp specEreFp specUFp specDFp specDMaxFp
  simp only [h75]
  by_cases h0 : rnd (rnd (rnd (0.25 * rnd (GetSeconds s.m_maxRtt)) +
      rnd (0.75 * rnd s.m_prevMaxRtt)) - rnd (GetSeconds s.m_minRtt)) = 0
  · simp only [h0, ne_eq, not_true_eq_false, if_false, if_true, Option.some_bind,
      Option.bind_assoc]
  · simp only [h0, ne_eq, not_false_eq_true, if_true, if_false, Option.some_bind,
      Option.bind_assoc]

/-- In exact arithmetic, where every divisor of the formula is non-zero,
`GetSsThresh` converts the specification's value to `uint32_t` and chooses
between it and the fallback. -/
theorem GetSsThresh_eq (pow : ℚ → ℚ → ℚ) (s : TcpWestwood) (tcb : TcpSocketState) (b : Nat)
    (hcur : s.m_curRtt ≠ 0) (hden : specD s + specDMax s ≠ 0)
    (hpow : ∀ x, pow 2.71 x ≠ 0) :
    s.GetSsThresh id pow tcb b =
      (toUint32 (GetSeconds s.m_curRtt * (specDMax s / (specD s + specDMax s)) *
          specEre pow s tcb)).bind fun ssthresh =>
        if tcb.m_cWnd > ssthresh ∧ ssthresh ≠ 0 then some ssthresh
        else (toUint32 (s.m_currentBW * GetSeconds s.m_minRtt)).bind fun fb =>
          some (max ((2 * tcb.m_segmentSize) % 4294967296) fb) := by
  have hc : GetSeconds s.m_curRtt ≠ 0 := (GetSeconds_eq_zero _).not.mpr hcur
  have e1 : (0.25 : ℚ) * GetSeconds s.m_maxRtt + (1 - 0.25) * s.m_prevMaxRtt -
      GetSeconds s.m_minRtt = specDMax s := by
    unfold specDMax
    norm_num
  have e2 : GetSeconds s.m_curRtt - GetSeconds s.m_minRtt = specD s := rfl
  have hu : (if specDMax s ≠ 0 then
        (rdiv id (specD s) (specDMax s)).bind (fun x => rdiv id 1 (pow 2.71 (x * 10)))
      else some 1) = some (specU pow s) := by
    unfold specU
    by_cases h0 : specDMax s = 0
    · simp [h0]
    · simp [h0, rdiv, hpow]
  unfold TcpWestwood.GetSsThresh
  simp only [id_eq, e1, e2, hu, Option.some_bind, Option.bind_eq_bind]
  simp only [rdiv, id_eq, hc, hden, if_false, Option.some_bind]
  rfl

/-- In exact arithmetic, with `d + dMax = 0` the quotient `dMax / (d + dMax)`
has a zero divisor and `GetSsThresh` has no defined result, whatever the other
values are. -/
theorem GetSsThresh_zero_denominator (pow : ℚ → ℚ → ℚ) (s : TcpWestwood)
    (tcb : TcpSocketState) (b : Nat) (h : specD s + specDMax s = 0) :
    s.GetSsThresh id pow tcb b = none := by
  have e1 : (0.25 : ℚ) * GetSeconds s.m_maxRtt + (1 - 0.25) * s.m_prevMaxRtt -
      GetSeconds s.m_minRtt = specDMax s := by
    unfold specDMax
    norm_num
  have e2 : GetSeconds s.m_curRtt - GetSeconds s.m_minRtt = specD s := rfl
  have hq : rdiv id (specDMax s) (specD s + specDMax s) = none := by simp [rdiv, h]
  unfold TcpWestwood.GetSsThresh
  simp only [id_eq, e1, e2, hq, Option.bind_eq_bind, Option.none_bind]
  cases (if specDMax s ≠ 0 then
      (rdiv id (specD s) (specDMax s)).bind (fun x => rdiv id 1 (pow 2.71 (x * 10)))
    else some 1) with
  | none => rfl
  | some u =>
    cases rdiv id (↑tcb.m_cWnd) (GetSeconds s.m_curRtt) with
    | none => rfl
    | some r => rfl

/-- With a zero divisor `d + dMax`, as computed with rounding `rnd`,
`GetSsThresh` has no defined result. -/
theorem GetSsThresh_zero_divisor (rnd : ℚ → ℚ) (pow : ℚ → ℚ → ℚ) (s : TcpWestwood)
    (tcb : TcpSocketState) (b : Nat) (h75 : rnd (1 - 0.25) = 0.75)
    (h : rnd (specDFp rnd s + specDMaxFp rnd s) = 0) :
    s.GetSsThresh rnd pow tcb b = none := by
  rw [GetSsThresh_spec rnd pow s tcb b h75]
  have hq : rdiv rnd (specDMaxFp rnd s) (rnd (specDFp rnd s + specDMaxFp rnd s)) = none := by
    simp [rdiv, h]
  unfold specRawThresholdFp
  rw [hq]
  cases specEreFp rnd pow s tcb with
  | none => rfl
  | some ere => rfl

/-- Whatever the arithmetic yields, `GetSsThresh` returns through the branch
on its local `ssthresh`. -/
theorem GetSsThresh_branch (rnd : ℚ → ℚ) (pow : ℚ → ℚ → ℚ) (s : TcpWestwood)
    (tcb : TcpSocketState) (b : Nat) :
    ∃ o : Option Nat, s.GetSsThresh rnd pow tcb b =
      o.bind fun ssthresh =>
        if tcb.m_cWnd > ssthresh ∧ ssthresh ≠ 0 then some ssthresh
        else (toUint32 (rnd (rnd s.m_currentBW * rnd (GetSeconds s.m_minRtt)))).bind fun fb =>
          some (max ((2 * tcb.m_segmentSize) % 4294967296) fb) := by
  unfold TcpWestwood.GetSsThresh
  simp only [← Option.bind_assoc]
  exact ⟨_, rfl⟩

theorem toUint32_of_gt (x : ℚ) (h0 : -1 < x) (h1 : x < 4294967296) :
    toUint32 x = some ⌊x⌋.toNat := by
  unfold toUint32
  rw [if_pos ⟨h0, h1⟩]

theorem EstimateBW_none (s : TcpWestwood) (rtt : Time) (tcb : TcpSocketState) (h : rtt ≠ 0)
    (hf : s.m_fType = FilterType.NONE) :
    ∃ s2, s.EstimateBW rtt tcb = some s2 ∧
      s2.m_currentBW =
        ((wrapU32 (s.m_ackedSegments * (tcb.m_segmentSize : Int)) : Int) : ℚ) / GetSeconds rtt ∧
      s2.m_ackedSegments = 0 ∧ s2.m_pType = s.m_pType ∧ s2.m_fType = s.m_fType := by
  unfold TcpWestwood.EstimateBW
  simp only [IsZero, h, decide_False, Bool.false_eq_true, if_false]
  cases hp : s.m_pType <;> simp [hf, hp]

/-- Running a pending event under delayed sampling clears the event handle
and `m_IsCount`. -/
theorem RunBwEstimateEvent_delayed (s : TcpWestwood) (tcb : TcpSocketState)
    (ev : BwEstimateEvent) (hev : s.m_bwEstimateEvent = some ev) (hr : ev.rtt ≠ 0)
    (hp : s.m_pType = ProtocolType.WESTWOODPLUS) :
    ∃ s2, s.RunBwEstimateEvent tcb = some s2 ∧ s2.m_bwEstimateEvent = none ∧
      s2.m_IsCount = false := by
  unfold TcpWestwood.RunBwEstimateEvent
  rw [hev]
  unfold TcpWestwood.EstimateBW
  simp only [IsZero, hr, decide_False, Bool.false_eq_true, if_false]
  cases hf : s.m_fType <;> simp [hf, hp]

/-- The result of `EstimateBW` with the Tustin filter. -/
theorem EstimateBW_tustin (s : TcpWestwood) (rtt : Time) (tcb : TcpSocketState) (h : rtt ≠ 0)
    (hf : s.m_fType = FilterType.TUSTIN) :
    ∃ s2, s.EstimateBW rtt tcb = some s2 ∧
      s2.m_currentBW =
        roundDouble (roundDouble (roundDouble 0.9 * s.m_lastBW) +
          roundDouble (roundDouble (1 - roundDouble 0.9) *
            roundDouble (roundDouble (rawSample s rtt tcb + s.m_lastSampleBW) / 2))) ∧
      s2.m_lastSampleBW = rawSample s rtt tcb ∧ s2.m_lastBW = s2.m_currentBW ∧
      s2.m_fType = FilterType.TUSTIN := by
  unfold TcpWestwood.EstimateBW rawSample
  simp only [IsZero, h, decide_False, Bool.false_eq_true, if_false]
  cases hp : s.m_pType <;> simp [hf, hp]

/-- One event either leaves the filter members alone or is one call of
`EstimateBW`, with a non-zero RTT, on a state with the same filter members. -/
theorem step_estimate (P : Time → Prop) (s : TcpWestwood) (st : Step)
    (hP : ∀ tcb n rtt, st = Step.ack tcb n rtt → rtt ≠ 0 → P rtt) (he : EventSat P s) :
    ∃ s2, s.step st = some s2 ∧ EventSat P s2 ∧
      (SameFilter s s2 ∨ ∃ t rtt tcb, rtt ≠ 0 ∧ P rtt ∧ SameFilter s t ∧
        t.EstimateBW rtt tcb = some s2) := by
  cases st with
  | ack tcb n rtt =>
    by_cases h : rtt = 0
    · subst h
      exact ⟨s, PktsAcked_of_zero s tcb n, he, Or.inl ⟨rfl, rfl, rfl, rfl, rfl⟩⟩
    · have hPr : P rtt := hP tcb n rtt rfl h
      simp only [TcpWestwood.step]
      rw [PktsAcked_eq s tcb n rtt h]
      cases hp : s.m_pType
      · obtain ⟨s2, e, -, -, -, -, ev, -⟩ := EstimateBW_frame (ackTracked s n rtt) rtt tcb h
        refine ⟨s2, e, ?_, Or.inr ⟨ackTracked s n rtt, rtt, tcb, h, hPr,
          ⟨rfl, rfl, rfl, rfl, rfl⟩, e⟩⟩
        intro x hx
        rw [ev] at hx
        exact he x hx
      · cases hc : s.m_IsCount
        · refine ⟨{ ackTracked s n rtt with
              m_IsCount := true, m_bwEstimateEvent := some ⟨rtt, rtt⟩ }, by simp, ?_,
            Or.inl ⟨rfl, rfl, rfl, rfl, rfl⟩⟩
          intro x hx
          cases hx
          exact ⟨h, hPr⟩
        · exact ⟨ackTracked s n rtt, by simp, he, Or.inl ⟨rfl, rfl, rfl, rfl, rfl⟩⟩
  | fire tcb =>
    simp only [TcpWestwood.step, TcpWestwood.RunBwEstimateEvent]
    cases hev : s.m_bwEstimateEvent with
    | none => exact ⟨s, rfl, he, Or.inl ⟨rfl, rfl, rfl, rfl, rfl⟩⟩
    | some ev =>
      obtain ⟨h0, hPr⟩ := he ev hev
      obtain ⟨s2, e, -, -, -, -, ev2, -⟩ :=
        EstimateBW_frame { s with m_bwEstimateEvent := none } ev.rtt tcb h0
      refine ⟨s2, e, ?_, Or.inr ⟨{ s with m_bwEstimateEvent := none }, ev.rtt, tcb, h0, hPr,
        ⟨rfl, rfl, rfl, rfl, rfl⟩, e⟩⟩
      intro x hx
      rw [ev2] at hx
      cases hx

/-- With the Tustin filter, every execution keeps `m_lastBW` equal to the
published `m_currentBW`. -/
theorem run_tustin (tr : List Step) :
    ∀ s : TcpWestwood, EventSat (fun _ => True) s → s.m_fType = FilterType.TUSTIN →
      s.m_lastBW = s.m_currentBW →
      ∃ s2, s.run tr = some s2 ∧ s2.m_fType = FilterType.TUSTIN ∧
        s2.m_lastBW = s2.m_currentBW := by
  induction tr with
  | nil => exact fun s _ hf hl => ⟨s, rfl, hf, hl⟩
  | cons st rest ih =>
    intro s he hf hl
    obtain ⟨s1, e1, he1, hcase⟩ := step_estimate (fun _ => True) s st (fun _ _ _ _ _ => trivial) he
    have h1 : s1.m_fType = FilterType.TUSTIN ∧ s1.m_lastBW = s1.m_currentBW := by
      rcases hcase with ⟨a, b, -, d, -⟩ | ⟨t, rtt, tcb, hr, -, ⟨-, -, -, d, -⟩, e⟩
      · exact ⟨d.trans hf, by rw [a, b]; exact hl⟩
      · obtain ⟨s2, e2, -, -, l2, f2⟩ := EstimateBW_tustin t rtt tcb hr (d.trans hf)
        rw [e] at e2
        cases e2
        exact ⟨f2, l2⟩
    obtain ⟨s2, e2, r⟩ := ih s1 he1 h1.1 h1.2
    exact ⟨s2, by simp [TcpWestwood.run, e1, e2], r⟩

/-- The raw sample is a double. -/
theorem rawSample_double (s : TcpWestwood) (rtt : Time) (tcb : TcpSocketState) :
    roundDouble (rawSample s rtt tcb) = rawSample s rtt tcb := by
  unfold rawSample
  exact roundDouble_idem _

theorem GetSeconds_le (a b : Time) : GetSeconds a ≤ GetSeconds b ↔ a ≤ b := by
  unfold GetSeconds
  rw [div_le_div_iff_of_pos_right (by norm_num : (0 : ℚ) < 1000000000)]
  exact Int.cast_le

theorem ackRtts_append (tr1 tr2 : List Step) : ackRtts (tr1 ++ tr2) = ackRtts tr1 ++ ackRtts tr2 := by
  induction tr1 with
  | nil => rfl
  | cons st rest ih => cases st <;> simp [ackRtts, ih]

/-- An acknowledgment with a positive RTT extends the summarised samples. -/
theorem ack_hist (seen : List Time) (s : TcpWestwood) (tcb : TcpSocketState) (n : Nat)
    (rtt : Time) (hpos : 0 < rtt) (h : (seen = [] ∧ RttUnset s) ∨ RttHist seen s) :
    ∃ s2, s.PktsAcked tcb n rtt = some s2 ∧ RttHist (seen ++ [rtt]) s2 := by
  obtain ⟨s2, e, c, a, b, d, -, -⟩ := PktsAcked_rtt s tcb n rtt (ne_of_gt hpos)
  refine ⟨s2, e, ?_⟩
  unfold RttHist
  rcases h with ⟨hs, u1, u2⟩ | ⟨m0, mi, ma, bd, o1, o2, p, hp, p1, p2⟩
  · subst hs
    rw [u1] at a
    rw [u2] at b d
    simp only [if_true] at a b d
    rw [a, b, c, d]
    exact ⟨hpos, by simp, by simp, by simp, le_refl _, le_refl _, rtt, rfl, le_refl _,
      le_refl _⟩
  · have n1 : s.m_minRtt ≠ 0 := ne_of_gt m0
    have n2 : s.m_maxRtt ≠ 0 := ne_of_gt (lt_of_lt_of_le m0 (le_trans o1 o2))
    simp only [n1, n2, if_false] at a b d
    have hmm : s.m_minRtt ≤ s.m_maxRtt := le_trans o1 o2
    rw [c]
    by_cases h3 : rtt < s.m_minRtt
    · have h4 : ¬ rtt > s.m_maxRtt := by
        intro h4
        linarith
      simp only [h3, h4, if_true, if_false] at a b d
      rw [a, b, d]
      refine ⟨hpos, by simp, List.mem_append_left _ ma, ?_, le_refl _, by linarith,
        p, hp, by linarith, p2⟩
      intro r hr
      rcases List.mem_append.mp hr with hr | hr
      · have := bd r hr
        exact ⟨by linarith, this.2⟩
      · simp only [List.mem_singleton] at hr
        subst hr
        exact ⟨le_refl _, by linarith⟩
    · by_cases h4 : rtt > s.m_maxRtt
      · simp only [h3, h4, if_true, if_false] at a b d
        rw [a, b, d]
        refine ⟨m0, List.mem_append_left _ mi, by simp, ?_, by linarith, le_refl _,
          s.m_maxRtt, rfl, hmm, by linarith⟩
        intro r hr
        rcases List.mem_append.mp hr with hr | hr
        · have := bd r hr
          exact ⟨this.1, by linarith⟩
        · simp only [List.mem_singleton] at hr
          subst hr
          exact ⟨by linarith, le_refl _⟩
      · simp only [h3, h4, if_false] at a b d
        rw [a, b, d]
        refine ⟨m0, List.mem_append_left _ mi, List.mem_append_left _ ma, ?_, by linarith,
          by linarith, p, hp, p1, p2⟩
        intro r hr
        rcases List.mem_append.mp hr with hr | hr
        · exact bd r hr
        · simp only [List.mem_singleton] at hr
          subst hr
          exact ⟨by linarith, by linarith⟩

/-- One admissible event extends the summarised samples by its own. -/
theorem step_hist (seen : List Time) (s : TcpWestwood) (st : Step) (hv : st.valid = true)
    (he : EventOk s) (h : (seen = [] ∧ RttUnset s) ∨ RttHist seen s) :
    ∃ s2, s.step st = some s2 ∧ EventOk s2 ∧
      ((seen ++ ackRtts [st] = [] ∧ RttUnset s2) ∨ RttHist (seen ++ ackRtts [st]) s2) := by
  obtain ⟨s2, e, he2, -, -, -⟩ := step_rtt s st hv he (by
    rcases h with h | h
    · exact Or.inl h.2
    · exact Or.inr ⟨h.1, h.2.2.2.2.1, h.2.2.2.2.2.1⟩)
  refine ⟨s2, e, he2, ?_⟩
  cases st with
  | ack tcb n rtt =>
    have hpos : 0 < rtt := by simpa [Step.valid] using hv
    obtain ⟨s3, e3, h3⟩ := ack_hist seen s tcb n rtt hpos h
    simp only [TcpWestwood.step] at e
    rw [e3] at e
    cases e
    exact Or.inr h3
  | fire tcb =>
    obtain ⟨s3, e3, a, b, c, d, -, -, -⟩ := RunBwEstimateEvent_frame s tcb he
    simp only [TcpWestwood.step] at e
    rw [e3] at e
    cases e
    simp only [ackRtts, List.append_nil]
    rcases h with ⟨hs, u1, u2⟩ | h
    · exact Or.inl ⟨hs, a.trans u1, b.trans u2⟩
    · refine Or.inr ?_
      unfold RttHist at h ⊢
      rw [a, b, c, d]
      exact h

/-- A trace of admissible events runs to completion and the RTT members
summarise the samples of its acknowledgments. -/
theorem run_hist (tr : List Step) :
    ∀ (seen : List Time) (s : TcpWestwood), ValidTrace tr → EventOk s →
      ((seen = [] ∧ RttUnset s) ∨ RttHist seen s) →
      ∃ s2, s.run tr = some s2 ∧
        ((seen ++ ackRtts tr = [] ∧ RttUnset s2) ∨ RttHist (seen ++ ackRtts tr) s2) := by
  induction tr with
  | nil =>
    intro seen s _ _ h
    exact ⟨s, rfl, by simpa [ackRtts] using h⟩
  | cons st rest ih =>
    intro seen s hv he h
    obtain ⟨s1, e1, he1, h1⟩ := step_hist seen s st (hv st (List.mem_cons_self _ _)) he h
    obtain ⟨s2, e2, h2⟩ :=
      ih (seen ++ ackRtts [st]) s1 (fun x hx => hv x (List.mem_cons_of_mem _ hx)) he1 h1
    refine ⟨s2, by simp [TcpWestwood.run, e1, e2], ?_⟩
    have hl : seen ++ ackRtts [st] ++ ackRtts rest = seen ++ ackRtts (st :: rest) := by
      rw [List.append_assoc, ← ackRtts_append]
      rfl
    rw [hl] at h2
    exact h2

theorem ackRtts_ne_nil (tr : List Step) (h : HasAck tr) : ackRtts tr ≠ [] := by
  induction tr with
  | nil =>
    obtain ⟨st, hst, -⟩ := h
    cases hst
  | cons st rest ih =>
    cases st with
    | ack tcb n rtt => simp [ackRtts]
    | fire tcb =>
      simp only [ackRtts]
      apply ih
      obtain ⟨x, hx, hax⟩ := h
      rcases List.mem_cons.mp hx with rfl | hx
      · simp [Step.isAck] at hax
      · exact ⟨x, hx, hax⟩

/-- From a freshly constructed estimator, a trace of admissible events that
holds an acknowledgment ends in a state summarising its samples. -/
theorem fresh_hist (pType : ProtocolType) (fType : FilterType) (u : Uninit) (tr : List Step)
    (hv : ValidTrace tr) (ha : HasAck tr) :
    ∃ s, (TcpWestwood.ctor pType fType u).run tr = some s ∧ RttHist (ackRtts tr) s := by
  have he : EventOk (TcpWestwood.ctor pType fType u) := by
    intro ev hev
    simp [TcpWestwood.ctor] at hev
  obtain ⟨s, e, h⟩ := run_hist tr [] _ hv he (Or.inl ⟨rfl, rfl, rfl⟩)
  simp only [List.nil_append] at h
  rcases h with ⟨h0, -⟩ | h
  · exact absurd h0 (ackRtts_ne_nil tr ha)
  · exact ⟨s, e, h⟩

/-- The method `GetSsThresh`, evaluated in exact arithmetic, in terms of its
locals `u`, `d` and `dMax`. -/
theorem GetSsThresh_locals (pow : ℚ → ℚ → ℚ) (s : TcpWestwood) (tcb : TcpSocketState)
    (b : Nat) :
    s.GetSsThresh id pow tcb b =
      (s.GetSsThreshU pow).bind fun u =>
      (fdiv (tcb.m_cWnd : ℚ) (GetSeconds s.m_curRtt)).bind fun r =>
      (fdiv s.GetSsThreshDMax (s.GetSsThreshD + s.GetSsThreshDMax)).bind fun q =>
      (toUint32 (GetSeconds s.m_curRtt * q * (u * s.m_currentBW + (1 - u) * r))).bind
        fun ssthresh =>
        if tcb.m_cWnd > ssthresh ∧ ssthresh ≠ 0 then some ssthresh
        else (toUint32 (s.m_currentBW * GetSeconds s.m_minRtt)).bind fun fb =>
          some (max ((2 * tcb.m_segmentSize) % 4294967296) fb) := by
  unfold TcpWestwood.GetSsThresh TcpWestwood.GetSsThreshU TcpWestwood.GetSsThreshDMax
    TcpWestwood.GetSsThreshD
  rfl

theorem GetSsThreshDMax_eq (s : TcpWestwood) : s.GetSsThreshDMax = specDMax s := by
  unfold TcpWestwood.GetSsThreshDMax specDMax
  norm_num

theorem GetSsThreshD_eq (s : TcpWestwood) : s.GetSsThreshD = specD s := rfl

/-- Consequences of the summary of samples for `d` and `dMax`. -/
theorem hist_distances (seen : List Time) (s : TcpWestwood) (h : RttHist seen s) :
    0 ≤ specD s ∧ 0 ≤ specDMax s ∧ specD s ≤ 4 * specDMax s ∧
      (specDMax s = 0 ↔ s.m_minRtt = s.m_maxRtt) ∧
      s.m_prevMaxRtt ≤ GetSeconds s.m_maxRtt := by
  obtain ⟨-, -, -, -, o1, o2, p, hp, p1, p2⟩ := h
  have a1 := (GetSeconds_le _ _).mpr o1
  have a2 := (GetSeconds_le _ _).mpr o2
  have a3 := (GetSeconds_le _ _).mpr p1
  have a4 := (GetSeconds_le _ _).mpr p2
  unfold specD specDMax
  rw [hp]
  refine ⟨by linarith, by norm_num; linarith, by norm_num; linarith, ?_, a4⟩
  constructor
  · intro h0
    norm_num at h0
    have h5 : GetSeconds s.m_maxRtt ≤ GetSeconds s.m_minRtt := by linarith
    exact le_antisymm (le_trans o1 o2) ((GetSeconds_le _ _).mp h5)
  · intro hmm
    have hp2 : p = s.m_minRtt := le_antisymm (hmm ▸ p2) p1
    rw [hp2, ← hmm]
    norm_num
    ring

theorem slowedState_reached :
    (TcpWestwood.ctor ProtocolType.WESTWOOD FilterType.TUSTIN ⟨0, 0⟩).run
        [Step.ack ⟨1000, 14600⟩ 4 500000000, Step.ack ⟨1000, 14600⟩ 4 1000000000] =
      some slowedState := by
  decide!

theorem fastState_reached :
    (TcpWestwood.ctor ProtocolType.WESTWOOD FilterType.NONE ⟨0, 0⟩).run
        [Step.ack ⟨5639, 14600⟩ 1 125000000, Step.ack ⟨5639, 14600⟩ 1 85937500] =
      some fastState := by
  decide!

/-! ## Claims -/

/-- C1: from a freshly constructed estimator, after any sequence of events
whose acknowledgments all carry positive RTT samples and which contains at
least one acknowledgment, the run completes and `m_minRtt ≤ m_curRtt ≤ m_maxRtt`. -/
theorem rtt_ordered_after_samples (pType : ProtocolType) (fType : FilterType) (u : Uninit)
    (tr : List Step) (hv : ValidTrace tr) (ha : HasAck tr) :
    ∃ s, (TcpWestwood.ctor pType fType u).run tr = some s ∧
      s.m_minRtt ≤ s.m_curRtt ∧ s.m_curRtt ≤ s.m_maxRtt := by
  have he : EventOk (TcpWestwood.ctor pType fType u) := by
    intro ev hev
    simp [TcpWestwood.ctor] at hev
  obtain ⟨s, e, -, -, -, h⟩ :=
    run_rtt tr (TcpWestwood.ctor pType fType u) hv he (Or.inl ⟨rfl, rfl⟩)
  exact ⟨s, e, (h ha).2.1, (h ha).2.2⟩

theorem rtt_ordered_after_samples_witness :
    ValidTrace [Step.ack ⟨1460, 14600⟩ 2 50000000, Step.fire ⟨1460, 14600⟩,
        Step.ack ⟨1460, 14600⟩ 1 40000000] ∧
      HasAck [Step.ack ⟨1460, 14600⟩ 2 50000000, Step.fire ⟨1460, 14600⟩,
        Step.ack ⟨1460, 14600⟩ 1 40000000] ∧
      ∃ s, (TcpWestwood.ctor ProtocolType.WESTWOODPLUS FilterType.TUSTIN ⟨0, 0⟩).run
          [Step.ack ⟨1460, 14600⟩ 2 50000000, Step.fire ⟨1460, 14600⟩,
            Step.ack ⟨1460, 14600⟩ 1 40000000] = some s ∧
        s.m_minRtt ≤ s.m_curRtt ∧ s.m_curRtt ≤ s.m_maxRtt :=
  ⟨by simp [ValidTrace, Step.valid], by simp [HasAck, Step.isAck],
    rtt_ordered_after_samples _ _ _ _ (by simp [ValidTrace, Step.valid])
      (by simp [HasAck, Step.isAck])⟩

/-- C2 (as stated, refuted): on the very first sample, when `m_maxRtt` is
still the unset value 0, `m_prevMaxRtt` becomes the sample itself (1 s here),
not the value 0 that `m_maxRtt` held before the call. -/
theorem prevMaxRtt_first_sample_counterexample :
    (TcpWestwood.ctor ProtocolType.WESTWOOD FilterType.NONE ⟨0, 0⟩).m_maxRtt < 1000000000 ∧
      GetSeconds (TcpWestwood.ctor ProtocolType.WESTWOOD FilterType.NONE ⟨0, 0⟩).m_maxRtt = 0 ∧
      ∃ s2, (TcpWestwood.ctor ProtocolType.WESTWOOD FilterType.NONE ⟨0, 0⟩).PktsAcked
          ⟨1460, 14600⟩ 1 1000000000 = some s2 ∧ s2.m_prevMaxRtt = 1 := by
  refine ⟨by simp [TcpWestwood.ctor], by simp [TcpWestwood.ctor, GetSeconds], ?_⟩
  obtain ⟨s2, e, -, -, -, d, -, -⟩ :=
    PktsAcked_rtt (TcpWestwood.ctor ProtocolType.WESTWOOD FilterType.NONE ⟨0, 0⟩)
      ⟨1460, 14600⟩ 1 1000000000 (by decide)
  refine ⟨s2, e, ?_⟩
  rw [d]
  norm_num [TcpWestwood.ctor, GetSeconds]

/-- C2 (amended): for a positive sample, `PktsAcked` changes `m_prevMaxRtt`
only if the sample strictly exceeds the `m_maxRtt` held before the call; when
that `m_maxRtt` was already set, `m_prevMaxRtt` becomes its value in seconds;
when it was unset (first sample), `m_prevMaxRtt` becomes the sample itself. -/
theorem prevMaxRtt_update (s : TcpWestwood) (tcb : TcpSocketState) (n : Nat) (rtt : Time)
    (h : 0 < rtt) :
    ∃ s2, s.PktsAcked tcb n rtt = some s2 ∧
      (s2.m_prevMaxRtt ≠ s.m_prevMaxRtt → s.m_maxRtt < rtt) ∧
      (s.m_maxRtt < rtt → s.m_maxRtt ≠ 0 → s2.m_prevMaxRtt = GetSeconds s.m_maxRtt) ∧
      (s.m_maxRtt = 0 → s2.m_prevMaxRtt = GetSeconds rtt) := by
  obtain ⟨s2, e, -, -, -, d, -, -⟩ := PktsAcked_rtt s tcb n rtt (ne_of_gt h)
  refine ⟨s2, e, ?_, ?_, ?_⟩
  · intro hne
    by_contra hle
    apply hne
    rw [d]
    by_cases h0 : s.m_maxRtt = 0
    · exact absurd (h0 ▸ h) hle
    · simp [h0, hle]
  · intro hlt h0
    rw [d]
    simp [h0, hlt]
  · intro h0
    rw [d]
    simp [h0]

theorem prevMaxRtt_update_witness :
    (0 : Time) < 3000000000 ∧
      ∃ s2, (TcpWestwood.mk 0 0 0 1000000000 2000000000 1000000000 1 ProtocolType.WESTWOOD
          FilterType.NONE 0 false none).PktsAcked ⟨1460, 14600⟩ 1 3000000000 = some s2 ∧
        (s2.m_prevMaxRtt ≠ (1 : ℚ) → (2000000000 : Time) < 3000000000) ∧
        ((2000000000 : Time) < 3000000000 → (2000000000 : Time) ≠ 0 →
          s2.m_prevMaxRtt = GetSeconds 2000000000) ∧
        ((2000000000 : Time) = 0 → s2.m_prevMaxRtt = GetSeconds 3000000000) :=
  ⟨by decide, prevMaxRtt_update _ _ _ _ (by decide)⟩

/-- C3: an acknowledgment whose RTT is zero returns with the whole state
unchanged, the pending-event handle included. -/
theorem PktsAcked_zero_rtt (s : TcpWestwood) (tcb : TcpSocketState) (n : Nat) :
    s.PktsAcked tcb n 0 = some s := by
  simp [TcpWestwood.PktsAcked, IsZero]

/-- C4 (code at the failing input): forking a Westwood+ parent whose
estimation is pending yields a copy with `m_IsCount` still true although no
event is armed for it; the stale flag stays set, with no event, after the
copy's next acknowledgment. -/
theorem fork_copies_IsCount_at_pending_parent :
    pendingParent.m_IsCount = true ∧
      (pendingParent.Fork ⟨0, 0⟩).2.m_IsCount = true ∧
      (pendingParent.Fork ⟨0, 0⟩).2.m_bwEstimateEvent = none ∧
      ∃ s2, (pendingParent.Fork ⟨0, 0⟩).2.PktsAcked ⟨1460, 14600⟩ 2 50000000 = some s2 ∧
        s2.m_IsCount = true ∧ s2.m_bwEstimateEvent = none := by
  refine ⟨rfl, rfl, rfl, ?_⟩
  obtain ⟨s2, e, -, hc, he, -⟩ :=
    stuck_step (pendingParent.Fork ⟨0, 0⟩).2 (Step.ack ⟨1460, 14600⟩ 2 50000000) rfl rfl rfl
  exact ⟨s2, e, hc, he⟩

/-- C5 (code at the failing input): the copy made by `Fork` has its three
`Time` members zero, but `m_ackedSegments` and `m_prevMaxRtt` hold whatever
the new object's storage held (7 and 3/2 here), not 0; the copy's first
acknowledgment of 2 segments of 1460 bytes at RTT 50 ms then estimates
`9 * 1460 / 0.05 = 262800` bytes/s instead of 58400. -/
theorem fork_leaves_counter_uninitialised :
    ((TcpWestwood.ctor ProtocolType.WESTWOOD FilterType.NONE ⟨0, 0⟩).Fork ⟨3 / 2, 7⟩).2.m_minRtt
        = 0 ∧
      ((TcpWestwood.ctor ProtocolType.WESTWOOD FilterType.NONE ⟨0, 0⟩).Fork ⟨3 / 2, 7⟩).2.m_maxRtt
        = 0 ∧
      ((TcpWestwood.ctor ProtocolType.WESTWOOD FilterType.NONE ⟨0, 0⟩).Fork ⟨3 / 2, 7⟩).2.m_curRtt
        = 0 ∧
      ((TcpWestwood.ctor ProtocolType.WESTWOOD FilterType.NONE ⟨0, 0⟩).Fork
        ⟨3 / 2, 7⟩).2.m_ackedSegments = 7 ∧
      ((TcpWestwood.ctor ProtocolType.WESTWOOD FilterType.NONE ⟨0, 0⟩).Fork
        ⟨3 / 2, 7⟩).2.m_prevMaxRtt = 3 / 2 ∧
      ∃ s2, ((TcpWestwood.ctor ProtocolType.WESTWOOD FilterType.NONE ⟨0, 0⟩).Fork
          ⟨3 / 2, 7⟩).2.PktsAcked ⟨1460, 14600⟩ 2 50000000 = some s2 ∧
        s2.m_currentBW = 262800 := by
  refine ⟨rfl, rfl, rfl, rfl, rfl, ?_⟩
  obtain ⟨s2, e, bw, -⟩ :=
    EstimateBW_none (ackTracked ((TcpWestwood.ctor ProtocolType.WESTWOOD FilterType.NONE
      ⟨0, 0⟩).Fork ⟨3 / 2, 7⟩).2 2 50000000) 50000000 ⟨1460, 14600⟩ (by decide) rfl
  refine ⟨s2, ?_, ?_⟩
  · rw [PktsAcked_eq _ _ _ _ (by decide)]
    exact e
  · rw [bw]
    norm_num [ackTracked, toInt32, wrapU32, GetSeconds, TcpWestwood.Fork, TcpWestwood.copyCtor]

/-- C6: `Fork` leaves the parent as it was and copies `m_currentBW`,
`m_lastSampleBW`, `m_lastBW`, `m_pType` and `m_fType` into the new object. -/
theorem fork_copies_estimate_and_configuration (s : TcpWestwood) (u : Uninit) :
    (s.Fork u).1 = s ∧
      (s.Fork u).2.m_currentBW = s.m_currentBW ∧
      (s.Fork u).2.m_lastSampleBW = s.m_lastSampleBW ∧
      (s.Fork u).2.m_lastBW = s.m_lastBW ∧
      (s.Fork u).2.m_pType = s.m_pType ∧
      (s.Fork u).2.m_fType = s.m_fType :=
  ⟨rfl, rfl, rfl, rfl, rfl, rfl⟩

/-- C7 (code at the failing input): after the first acknowledgment of a fresh
estimator (RTT 500 ms) the state has `d + dMax = 0`, and `GetSsThresh`
evaluates `dMax / (d + dMax)` with that zero divisor: it has no defined
result instead of returning the fallback, in exact arithmetic and in binary64
alike. -/
theorem GetSsThresh_undefined_after_first_ack :
    ∃ s, (TcpWestwood.ctor ProtocolType.WESTWOOD FilterType.TUSTIN ⟨0, 0⟩).PktsAcked
        ⟨1460, 14600⟩ 1 500000000 = some s ∧
      specD s + specDMax s = 0 ∧
      s.GetSsThresh id powFloor ⟨1460, 14600⟩ 0 = none ∧
      s.GetSsThresh roundDouble powDouble ⟨1460, 14600⟩ 0 = none := by
  obtain ⟨s, e, c, a, b, d, -, -⟩ :=
    PktsAcked_rtt (TcpWestwood.ctor ProtocolType.WESTWOOD FilterType.TUSTIN ⟨0, 0⟩)
      ⟨1460, 14600⟩ 1 500000000 (by decide)
  have hmin : s.m_minRtt = 500000000 := by rw [a]; rfl
  have hmax : s.m_maxRtt = 500000000 := by rw [b]; rfl
  have hprev : s.m_prevMaxRtt = GetSeconds 500000000 := by rw [d]; rfl
  have h : specD s + specDMax s = 0 := by
    unfold specD specDMax
    rw [hmin, hmax, c, hprev]
    norm_num [GetSeconds]
  refine ⟨s, e, h, GetSsThresh_zero_denominator _ _ _ _ h, ?_⟩
  apply GetSsThresh_zero_divisor _ _ _ _ _ (by decide!)
  unfold specDFp specDMaxFp
  rw [hmin, hmax, c, hprev]
  decide!

/-- C8: for every estimator state and snapshot, with the formula evaluated in
floating point under a rounding `rnd` that computes `1 - 0.25` exactly (as
binary64 and exact arithmetic do): if the specification's `rawThreshold` has
the value `r`, `cwnd > r` and `r ≠ 0`, then `GetSsThresh` returns exactly `r`.
That `rawThreshold` has a value includes the claim's `curRtt > 0` and
`d + dMax ≠ 0`: the doubles `currentRTT` and `d + dMax` are non-zero. -/
theorem GetSsThresh_returns_rawThreshold (rnd : ℚ → ℚ) (pow : ℚ → ℚ → ℚ) (s : TcpWestwood)
    (tcb : TcpSocketState) (b : Nat) (h75 : rnd (1 - 0.25) = 0.75) (r : Nat)
    (hraw : specRawThresholdFp rnd pow s tcb = some r) (hlt : tcb.m_cWnd > r) (hne : r ≠ 0) :
    s.GetSsThresh rnd pow tcb b = some r ∧
      rnd (GetSeconds s.m_curRtt) ≠ 0 ∧ rnd (specDFp rnd s + specDMaxFp rnd s) ≠ 0 := by
  refine ⟨?_, ?_, ?_⟩
  · rw [GetSsThresh_spec rnd pow s tcb b h75, hraw]
    simp only [Option.some_bind]
    rw [if_pos ⟨hlt, hne⟩]
  · intro h0
    simp [specRawThresholdFp, specEreFp, rdiv, h0] at hraw
  · intro h0
    simp [specRawThresholdFp, rdiv, h0] at hraw

theorem GetSsThresh_returns_rawThreshold_witness :
    (TcpWestwood.ctor ProtocolType.WESTWOOD FilterType.TUSTIN ⟨0, 0⟩).run
        [Step.ack ⟨1000, 14600⟩ 4 500000000, Step.ack ⟨1000, 14600⟩ 4 1000000000] =
        some slowedState ∧
      roundDouble (1 - 0.25) = 0.75 ∧
      specRawThresholdFp roundDouble powDouble slowedState ⟨1000, 14600⟩ = some 2920 ∧
      (14600 : Nat) > 2920 ∧ (2920 : Nat) ≠ 0 ∧
      slowedState.GetSsThresh roundDouble powDouble ⟨1000, 14600⟩ 0 = some 2920 ∧
      roundDouble (GetSeconds slowedState.m_curRtt) ≠ 0 ∧
      roundDouble (specDFp roundDouble slowedState + specDMaxFp roundDouble slowedState) ≠ 0 :=
  ⟨slowedState_reached, by decide!, by decide!, by decide, by decide,
    GetSsThresh_returns_rawThreshold roundDouble powDouble slowedState ⟨1000, 14600⟩ 0
      (by decide!) 2920 (by decide!) (by decide) (by decide)⟩

/-- C9 (as stated, refuted): with `segmentSize = 2^31` the product
`2 * segmentSize` wraps to 0 in `uint32_t`; here `rawThreshold = 0`, the
specification's fallback is `max (2^32, 0) = 2^32`, and `GetSsThresh`
returns 0, in binary64 and in exact arithmetic alike. -/
theorem GetSsThresh_fallback_overflow_counterexample :
    specRawThresholdFp roundDouble powDouble (TcpWestwood.mk 0 0 0 1000000000 2000000000
        1000000000 2 ProtocolType.WESTWOOD FilterType.NONE 0 false none) ⟨2147483648, 0⟩ =
        some 0 ∧
      specFallbackFp roundDouble (TcpWestwood.mk 0 0 0 1000000000 2000000000 1000000000 2
        ProtocolType.WESTWOOD FilterType.NONE 0 false none) ⟨2147483648, 0⟩ =
        some 4294967296 ∧
      (TcpWestwood.mk 0 0 0 1000000000 2000000000 1000000000 2
        ProtocolType.WESTWOOD FilterType.NONE 0 false none).GetSsThresh roundDouble powDouble
          ⟨2147483648, 0⟩ 0 = some 0 ∧
      (TcpWestwood.mk 0 0 0 1000000000 2000000000 1000000000 2
        ProtocolType.WESTWOOD FilterType.NONE 0 false none).GetSsThresh id powFloor
          ⟨2147483648, 0⟩ 0 = some 0 := by
  refine ⟨by decide!, by decide!, by decide!, by decide!⟩

/-- C9 (amended): with the formula evaluated in floating point under a
rounding `rnd` that computes `1 - 0.25` exactly, if the specification's
`rawThreshold` has the value `r` and `cwnd ≤ r` or `r = 0`, then `GetSsThresh`
returns `max ((2 * segmentSize) mod 2^32, floor (currentBW * minRTT))`, the
floor being the conversion of the product to `uint32_t`; this is the
specification's fallback when `2 * segmentSize < 2^32`, and it is
`max ((2 * segmentSize) mod 2^32, 100000)` for `currentBW = 1000000` and
`minRtt = 0.1 s`, the product being the double 100000. -/
theorem GetSsThresh_returns_fallback (rnd : ℚ → ℚ) (pow : ℚ → ℚ → ℚ) (s : TcpWestwood)
    (tcb : TcpSocketState) (b : Nat) (h75 : rnd (1 - 0.25) = 0.75) (r : Nat)
    (hraw : specRawThresholdFp rnd pow s tcb = some r) (h : tcb.m_cWnd ≤ r ∨ r = 0) :
    s.GetSsThresh rnd pow tcb b =
        (toUint32 (rnd (rnd s.m_currentBW * rnd (GetSeconds s.m_minRtt)))).map
          (fun fb => max ((2 * tcb.m_segmentSize) % 4294967296) fb) ∧
      (2 * tcb.m_segmentSize < 4294967296 →
        s.GetSsThresh rnd pow tcb b = specFallbackFp rnd s tcb) ∧
      (s.m_currentBW = 1000000 → s.m_minRtt = 100000000 →
        rnd (rnd 1000000 * rnd (GetSeconds 100000000)) = 100000 →
        s.GetSsThresh rnd pow tcb b =
          some (max ((2 * tcb.m_segmentSize) % 4294967296) 100000)) := by
  have hmain : s.GetSsThresh rnd pow tcb b =
      (toUint32 (rnd (rnd s.m_currentBW * rnd (GetSeconds s.m_minRtt)))).map
        (fun fb => max ((2 * tcb.m_segmentSize) % 4294967296) fb) := by
    rw [GetSsThresh_spec rnd pow s tcb b h75, hraw]
    simp only [Option.some_bind]
    rw [if_neg]
    · cases toUint32 (rnd (rnd s.m_currentBW * rnd (GetSeconds s.m_minRtt))) <;> rfl
    · rintro ⟨h1, h2⟩
      rcases h with h | h
      · omega
      · exact h2 h
  refine ⟨hmain, ?_, ?_⟩
  · intro hseg
    rw [hmain]
    unfold specFallbackFp
    rw [Nat.mod_eq_of_lt hseg]
  · intro hb hm hv
    rw [hmain, hb, hm, hv]
    have : toUint32 100000 = some 100000 := by
      unfold toUint32
      rw [if_pos (by norm_num)]
      have : ⌊(100000 : ℚ)⌋ = 100000 := by
        exact_mod_cast Int.floor_intCast (100000 : Int)
      rw [this]
      rfl
    rw [this]
    rfl

theorem GetSsThresh_returns_fallback_witness :
    (TcpWestwood.ctor ProtocolType.WESTWOOD FilterType.NONE ⟨0, 0⟩).run
        [Step.ack ⟨5639, 14600⟩ 1 125000000, Step.ack ⟨5639, 14600⟩ 1 85937500] =
        some fastState ∧
      roundDouble (1 - 0.25) = 0.75 ∧
      specRawThresholdFp roundDouble powDouble fastState ⟨10, 100⟩ = some 5639 ∧
      ((100 : Nat) ≤ 5639 ∨ (5639 : Nat) = 0) ∧
      fastState.GetSsThresh roundDouble powDouble ⟨10, 100⟩ 0 = some 5639 ∧
      specFallbackFp roundDouble fastState ⟨10, 100⟩ = some 5639 ∧
      megabyteState.GetSsThresh roundDouble powDouble ⟨1460, 14600⟩ 0 = some 100000 := by
  have h := GetSsThresh_returns_fallback roundDouble powDouble fastState ⟨10, 100⟩ 0
    (by decide!) 5639 (by decide!) (Or.inl (by decide))
  have h2 := GetSsThresh_returns_fallback roundDouble powDouble megabyteState ⟨1460, 14600⟩ 0
    (by decide!) 100000 (by decide!) (Or.inl (by decide))
  refine ⟨fastState_reached, by decide!, by decide!, Or.inl (by decide), ?_, by decide!, ?_⟩
  · rw [h.1]
    decide!
  · exact h2.2.2 rfl rfl (by decide!)

/-- C11 (as stated, refuted): a fresh estimator with the Tustin filter
(published estimate 0, last raw sample 0) that is acknowledged 8 segments of
1000 bytes at RTT 1 s takes the raw sample 8000 and publishes the double
399.9999999999999, which is neither `0.9 * 0 + 0.1 * ((8000 + 0) / 2) = 400`
nor that expression evaluated in binary64 with the constant 0.1: the code
multiplies by `1 - alpha`, the double 0.09999999999999998. -/
theorem tustin_filter_weight_counterexample :
    (TcpWestwood.ctor ProtocolType.WESTWOOD FilterType.TUSTIN ⟨0, 0⟩).PktsAcked
        ⟨1000, 14600⟩ 8 1000000000 =
        some (TcpWestwood.mk (3518437208883199 / 8796093022208) 8000
          (3518437208883199 / 8796093022208) 1000000000 1000000000 1000000000 1
          ProtocolType.WESTWOOD FilterType.TUSTIN 0 false none) ∧
      rawSample (ackTracked (TcpWestwood.ctor ProtocolType.WESTWOOD FilterType.TUSTIN ⟨0, 0⟩)
        8 1000000000) 1000000000 ⟨1000, 14600⟩ = 8000 ∧
      (3518437208883199 / 8796093022208 : ℚ) ≠ 0.9 * 0 + 0.1 * ((8000 + 0) / 2) ∧
      (3518437208883199 / 8796093022208 : ℚ) ≠
        roundDouble (roundDouble (roundDouble 0.9 * 0) +
          roundDouble (roundDouble 0.1 * roundDouble (roundDouble (8000 + 0) / 2))) := by
  refine ⟨by decide!, by decide!, by norm_num, by decide!⟩

/-- C11 (amended): with the Tustin filter, in every state `s` reached from a
freshly constructed estimator, `m_lastBW` is the published `m_currentBW`, and
a call of `EstimateBW` (on `s` with its segment counter, RTT members and event
handle in any condition) with raw sample `raw`, a double, sets `m_currentBW`
to `0.9 * s.m_currentBW + (1 - 0.9) * ((raw + s.m_lastSampleBW) / 2)`
evaluated in binary64, every operation rounded, and `m_lastSampleBW` to `raw`;
the second weight is the double `1 - 0.9`, which is not the double 0.1.  For
two successive calls from the initial state with raw samples `r1`, `r2` the
first output is `(1 - 0.9) * (r1 / 2)` and the second is
`0.9 * filtered1 + (1 - 0.9) * ((r2 + r1) / 2)`, in binary64. -/
theorem tustin_filter_update (pType : ProtocolType) (u : Uninit) (tr : List Step) :
    ∃ s, (TcpWestwood.ctor pType FilterType.TUSTIN u).run tr = some s ∧
      s.m_lastBW = s.m_currentBW ∧
      (∀ t rtt tcb, rtt ≠ 0 → SameFilter s t →
        ∃ s2, t.EstimateBW rtt tcb = some s2 ∧
          s2.m_currentBW =
            roundDouble (roundDouble (roundDouble 0.9 * s.m_currentBW) +
              roundDouble (roundDouble (1 - roundDouble 0.9) *
                roundDouble (roundDouble (rawSample t rtt tcb +
                  s.m_lastSampleBW) / 2))) ∧
          s2.m_lastSampleBW = rawSample t rtt tcb) ∧
      (∀ t1 rtt1 tcb1 t2 rtt2 tcb2, rtt1 ≠ 0 → rtt2 ≠ 0 →
        SameFilter (TcpWestwood.ctor pType FilterType.TUSTIN u) t1 →
        ∃ s1, t1.EstimateBW rtt1 tcb1 = some s1 ∧
          s1.m_currentBW =
            roundDouble (roundDouble (1 - roundDouble 0.9) *
              roundDouble (rawSample t1 rtt1 tcb1 / 2)) ∧
          (SameFilter s1 t2 →
            ∃ s2, t2.EstimateBW rtt2 tcb2 = some s2 ∧
              s2.m_currentBW =
                roundDouble (roundDouble (roundDouble 0.9 * s1.m_currentBW) +
                  roundDouble (roundDouble (1 - roundDouble 0.9) *
                    roundDouble (roundDouble (rawSample t2 rtt2 tcb2 +
                      rawSample t1 rtt1 tcb1) / 2))))) ∧
      roundDouble 0.9 = 8106479329266893 / 9007199254740992 ∧
      roundDouble (1 - roundDouble 0.9) = 900719925474099 / 9007199254740992 ∧
      roundDouble 0.1 = 3602879701896397 / 36028797018963968 := by
  have he : EventSat (fun _ => True) (TcpWestwood.ctor pType FilterType.TUSTIN u) := by
    intro ev hev
    simp [TcpWestwood.ctor] at hev
  obtain ⟨s, e, hf, hl⟩ := run_tustin tr _ he rfl rfl
  refine ⟨s, e, hl, ?_, ?_, by decide!, by decide!, by decide!⟩
  · rintro t rtt tcb hr ⟨-, b, c, d, -⟩
    obtain ⟨s2, e2, bw, ls, -, -⟩ := EstimateBW_tustin t rtt tcb hr (d.trans hf)
    refine ⟨s2, e2, ?_, ls⟩
    rw [bw, b, c, hl]
  · rintro t1 rtt1 tcb1 t2 rtt2 tcb2 hr1 hr2 ⟨-, b, c, d, -⟩
    obtain ⟨s1, e1, bw1, ls1, l1, f1⟩ := EstimateBW_tustin t1 rtt1 tcb1 hr1 (d.trans rfl)
    refine ⟨s1, e1, ?_, ?_⟩
    · rw [bw1, b, c]
      simp only [TcpWestwood.ctor, mul_zero, add_zero, zero_add, roundDouble_zero,
        roundDouble_idem, rawSample_double]
    · rintro ⟨-, b2, c2, d2, -⟩
      obtain ⟨s2, e2, bw2, -⟩ := EstimateBW_tustin t2 rtt2 tcb2 hr2 (d2.trans f1)
      refine ⟨s2, e2, ?_⟩
      rw [bw2, b2, c2, l1, ls1]

/-- C12: under immediate sampling (`m_pType = WESTWOOD`), for every state,
every segment count and every non-zero RTT, `PktsAcked` returns with
`m_ackedSegments = 0`. -/
theorem immediate_counter_reset (s : TcpWestwood) (tcb : TcpSocketState) (n : Nat)
    (rtt : Time) (hp : s.m_pType = ProtocolType.WESTWOOD) (hr : rtt ≠ 0) :
    ∃ s2, s.PktsAcked tcb n rtt = some s2 ∧ s2.m_ackedSegments = 0 := by
  obtain ⟨s2, e, -, -, -, -, -, -, -, c⟩ := EstimateBW_frame (ackTracked s n rtt) rtt tcb hr
  refine ⟨s2, ?_, c⟩
  rw [PktsAcked_eq s tcb n rtt hr, hp]
  exact e

theorem immediate_counter_reset_witness :
    (TcpWestwood.mk 0 0 0 0 0 0 0 ProtocolType.WESTWOOD FilterType.TUSTIN 5 false
        none).m_pType = ProtocolType.WESTWOOD ∧ (50000000 : Time) ≠ 0 ∧
      ∃ s2, (TcpWestwood.mk 0 0 0 0 0 0 0 ProtocolType.WESTWOOD FilterType.TUSTIN 5 false
          none).PktsAcked ⟨1460, 14600⟩ 2 50000000 = some s2 ∧ s2.m_ackedSegments = 0 :=
  ⟨rfl, by decide, immediate_counter_reset _ _ _ _ rfl (by decide)⟩

/-- C13: under delayed sampling (`m_pType = WESTWOODPLUS`) from a state with
`m_IsCount` false, the first of two acknowledgments with non-zero RTT sets
`m_IsCount` and arms `EstimateBW` with delay and argument `rtt1`; the second
only records its segments and RTT, arms nothing and leaves `m_IsCount` true,
so that the event still held is the first one; once that event has run, no
event is left. -/
theorem delayed_arms_once (s : TcpWestwood) (tcb1 tcb2 tcb3 : TcpSocketState) (n1 n2 : Nat)
    (rtt1 rtt2 : Time) (hp : s.m_pType = ProtocolType.WESTWOODPLUS)
    (hc : s.m_IsCount = false) (h1 : rtt1 ≠ 0) (h2 : rtt2 ≠ 0) :
    ∃ s1 s2 s3, s.PktsAcked tcb1 n1 rtt1 = some s1 ∧ s1.m_IsCount = true ∧
      s1.m_bwEstimateEvent = some ⟨rtt1, rtt1⟩ ∧
      s1.PktsAcked tcb2 n2 rtt2 = some s2 ∧ s2 = ackTracked s1 n2 rtt2 ∧
      s2.m_IsCount = true ∧ s2.m_bwEstimateEvent = some ⟨rtt1, rtt1⟩ ∧
      s2.RunBwEstimateEvent tcb3 = some s3 ∧ s3.m_bwEstimateEvent = none ∧
      s3.m_IsCount = false := by
  have e1 : s.PktsAcked tcb1 n1 rtt1 = some { ackTracked s n1 rtt1 with
      m_IsCount := true, m_bwEstimateEvent := some ⟨rtt1, rtt1⟩ } := by
    rw [PktsAcked_eq s tcb1 n1 rtt1 h1, hp]
    simp [hc]
  have hp1 : ({ ackTracked s n1 rtt1 with
      m_IsCount := true, m_bwEstimateEvent := some ⟨rtt1, rtt1⟩ } : TcpWestwood).m_pType =
      ProtocolType.WESTWOODPLUS := hp
  have e2 : ({ ackTracked s n1 rtt1 with
      m_IsCount := true, m_bwEstimateEvent := some ⟨rtt1, rtt1⟩ } : TcpWestwood).PktsAcked
      tcb2 n2 rtt2 = some (ackTracked { ackTracked s n1 rtt1 with
      m_IsCount := true, m_bwEstimateEvent := some ⟨rtt1, rtt1⟩ } n2 rtt2) := by
    rw [PktsAcked_eq _ tcb2 n2 rtt2 h2, hp1]
    simp
  obtain ⟨s3, e3, ev3, c3⟩ := RunBwEstimateEvent_delayed (ackTracked { ackTracked s n1 rtt1 with
      m_IsCount := true, m_bwEstimateEvent := some ⟨rtt1, rtt1⟩ } n2 rtt2) tcb3 ⟨rtt1, rtt1⟩
      rfl h1 hp
  exact ⟨_, _, s3, e1, rfl, rfl, e2, rfl, rfl, rfl, e3, ev3, c3⟩

theorem delayed_arms_once_witness :
    (TcpWestwood.ctor ProtocolType.WESTWOODPLUS FilterType.TUSTIN ⟨0, 0⟩).m_pType =
        ProtocolType.WESTWOODPLUS ∧
      (TcpWestwood.ctor ProtocolType.WESTWOODPLUS FilterType.TUSTIN ⟨0, 0⟩).m_IsCount = false ∧
      (50000000 : Time) ≠ 0 ∧ (40000000 : Time) ≠ 0 ∧
      ∃ s1 s2 s3, (TcpWestwood.ctor ProtocolType.WESTWOODPLUS FilterType.TUSTIN
          ⟨0, 0⟩).PktsAcked ⟨1460, 14600⟩ 2 50000000 = some s1 ∧ s1.m_IsCount = true ∧
        s1.m_bwEstimateEvent = some ⟨50000000, 50000000⟩ ∧
        s1.PktsAcked ⟨1460, 14600⟩ 3 40000000 = some s2 ∧ s2 = ackTracked s1 3 40000000 ∧
        s2.m_IsCount = true ∧ s2.m_bwEstimateEvent = some ⟨50000000, 50000000⟩ ∧
        s2.RunBwEstimateEvent ⟨1460, 14600⟩ = some s3 ∧ s3.m_bwEstimateEvent = none ∧
        s3.m_IsCount = false :=
  ⟨rfl, rfl, by decide, by decide,
    delayed_arms_once _ _ _ _ _ _ _ _ rfl rfl (by decide) (by decide)⟩

/-- C15: in every state reached from a freshly constructed estimator by events
with positive RTT samples, at least one of them an acknowledgment,
`m_prevMaxRtt` (seconds) is at most `m_maxRtt` in seconds. -/
theorem prevMaxRtt_le_maxRtt (pType : ProtocolType) (fType : FilterType) (u : Uninit)
    (tr : List Step) (hv : ValidTrace tr) (ha : HasAck tr) :
    ∃ s, (TcpWestwood.ctor pType fType u).run tr = some s ∧
      s.m_prevMaxRtt ≤ GetSeconds s.m_maxRtt := by
  obtain ⟨s, e, h⟩ := fresh_hist pType fType u tr hv ha
  exact ⟨s, e, (hist_distances _ s h).2.2.2.2⟩

theorem prevMaxRtt_le_maxRtt_witness :
    ValidTrace [Step.ack ⟨1460, 14600⟩ 2 50000000, Step.ack ⟨1460, 14600⟩ 2 70000000,
        Step.ack ⟨1460, 14600⟩ 2 90000000] ∧
      HasAck [Step.ack ⟨1460, 14600⟩ 2 50000000, Step.ack ⟨1460, 14600⟩ 2 70000000,
        Step.ack ⟨1460, 14600⟩ 2 90000000] ∧
      ∃ s, (TcpWestwood.ctor ProtocolType.WESTWOODPLUS FilterType.NONE ⟨5, 0⟩).run
          [Step.ack ⟨1460, 14600⟩ 2 50000000, Step.ack ⟨1460, 14600⟩ 2 70000000,
            Step.ack ⟨1460, 14600⟩ 2 90000000] = some s ∧
        s.m_prevMaxRtt ≤ GetSeconds s.m_maxRtt :=
  ⟨by simp [ValidTrace, Step.valid], by simp [HasAck, Step.isAck],
    prevMaxRtt_le_maxRtt _ _ _ _ (by simp [ValidTrace, Step.valid])
      (by simp [HasAck, Step.isAck])⟩

/-- C17: for every state with `curRtt = minRtt`, a non-zero double, and
`dMax ≠ 0`, under a rounding `rnd` that leaves doubles unchanged (and with
`pow (2.71, 0) = 1`): the formula gives `u = 1` and
`ere = currentBandwidthEstimate`, its `rawThreshold` is
`floor (currentBandwidthEstimate * minRTT)`, the product a double and the floor
its conversion to `uint32_t`, and `GetSsThresh` branches on exactly that value:
`cwnd / currentRTT` has no influence on it. -/
theorem threshold_at_min_rtt (rnd : ℚ → ℚ) (pow : ℚ → ℚ → ℚ) (s : TcpWestwood)
    (tcb : TcpSocketState) (b : Nat) (h75 : rnd (1 - 0.25) = 0.75) (h0 : rnd 0 = 0)
    (h1 : rnd 1 = 1) (hidem : ∀ x, rnd (rnd x) = rnd x) (hpow : pow (rnd 2.71) 0 = 1)
    (hcur : s.m_curRtt = s.m_minRtt) (hpos : rnd (GetSeconds s.m_minRtt) ≠ 0)
    (hne : specDMaxFp rnd s ≠ 0) :
    specUFp rnd pow s = some 1 ∧ specEreFp rnd pow s tcb = some (rnd s.m_currentBW) ∧
      specRawThresholdFp rnd pow s tcb =
        toUint32 (rnd (rnd (GetSeconds s.m_minRtt) * rnd s.m_currentBW)) ∧
      s.GetSsThresh rnd pow tcb b =
        (toUint32 (rnd (rnd (GetSeconds s.m_minRtt) * rnd s.m_currentBW))).bind fun ssthresh =>
          if tcb.m_cWnd > ssthresh ∧ ssthresh ≠ 0 then some ssthresh
          else (toUint32 (rnd (rnd s.m_currentBW * rnd (GetSeconds s.m_minRtt)))).bind fun fb =>
            some (max ((2 * tcb.m_segmentSize) % 4294967296) fb) := by
  have hd : specDFp rnd s = 0 := by
    unfold specDFp
    rw [hcur, sub_self, h0]
  have hdm : rnd (specDMaxFp rnd s) = specDMaxFp rnd s := by
    unfold specDMaxFp
    exact hidem _
  have hu : specUFp rnd pow s = some 1 := by
    unfold specUFp
    rw [if_neg hne, hd]
    simp [rdiv, hne, h0, hpow, h1]
  have he : specEreFp rnd pow s tcb = some (rnd s.m_currentBW) := by
    unfold specEreFp
    rw [hu, hcur]
    simp [rdiv, hpos, h0, hidem]
  have hr : specRawThresholdFp rnd pow s tcb =
      toUint32 (rnd (rnd (GetSeconds s.m_minRtt) * rnd s.m_currentBW)) := by
    unfold specRawThresholdFp
    rw [he, hd, zero_add, hdm, hcur]
    simp [rdiv, hne, h1, hidem]
  refine ⟨hu, he, hr, ?_⟩
  rw [GetSsThresh_spec rnd pow s tcb b h75, hr]

theorem threshold_at_min_rtt_witness :
    roundDouble (1 - 0.25) = 0.75 ∧ roundDouble 0 = 0 ∧ roundDouble 1 = 1 ∧
      (∀ x, roundDouble (roundDouble x) = roundDouble x) ∧
      powDouble (roundDouble 2.71) 0 = 1 ∧ fastState.m_curRtt = fastState.m_minRtt ∧
      roundDouble (GetSeconds fastState.m_minRtt) ≠ 0 ∧ specDMaxFp roundDouble fastState ≠ 0 ∧
      (specUFp roundDouble powDouble fastState = some 1 ∧
        specEreFp roundDouble powDouble fastState ⟨10, 14600⟩ =
          some (roundDouble fastState.m_currentBW) ∧
        specRawThresholdFp roundDouble powDouble fastState ⟨10, 14600⟩ =
          toUint32 (roundDouble (roundDouble (GetSeconds fastState.m_minRtt) *
            roundDouble fastState.m_currentBW)) ∧
        fastState.GetSsThresh roundDouble powDouble ⟨10, 14600⟩ 0 =
          (toUint32 (roundDouble (roundDouble (GetSeconds fastState.m_minRtt) *
            roundDouble fastState.m_currentBW))).bind fun ssthresh =>
            if 14600 > ssthresh ∧ ssthresh ≠ 0 then some ssthresh
            else (toUint32 (roundDouble (roundDouble fastState.m_currentBW *
                roundDouble (GetSeconds fastState.m_minRtt)))).bind fun fb =>
              some (max ((2 * 10) % 4294967296) fb)) ∧
      toUint32 (roundDouble (roundDouble (GetSeconds fastState.m_minRtt) *
        roundDouble fastState.m_currentBW)) = some 5639 ∧
      fastState.GetSsThresh roundDouble powDouble ⟨10, 14600⟩ 0 = some 5639 :=
  ⟨by decide!, roundDouble_zero, by decide!, roundDouble_idem, by decide!, rfl,
    by decide!, by decide!,
    threshold_at_min_rtt roundDouble powDouble fastState ⟨10, 14600⟩ 0 (by decide!)
      roundDouble_zero (by decide!) roundDouble_idem (by decide!) rfl (by decide!)
      (by decide!),
    by decide!, by decide!⟩

/-- C19: for every state and snapshot with `curRtt > 0`, `d + dMax ≠ 0`,
`1 ≤ segmentSize` and `2 * segmentSize < 2^32`, a value returned by
`GetSsThresh`, whatever the rounding of its arithmetic, is either strictly
between 0 and `cwnd` or at least `2 * segmentSize`, hence never 0; and in exact
arithmetic a value is returned whenever the power is non-zero and the two
operands of the `uint32_t` conversions are in range. -/
theorem GetSsThresh_never_zero (pow : ℚ → ℚ → ℚ) (s : TcpWestwood) (tcb : TcpSocketState)
    (b : Nat) (hcur : 0 < s.m_curRtt) (hden : s.GetSsThreshD + s.GetSsThreshDMax ≠ 0)
    (hseg : 1 ≤ tcb.m_segmentSize) (hseg2 : 2 * tcb.m_segmentSize < 4294967296) :
    (∀ rnd r, s.GetSsThresh rnd pow tcb b = some r →
      ((0 < r ∧ r < tcb.m_cWnd) ∨ 2 * tcb.m_segmentSize ≤ r) ∧ r ≠ 0) ∧
    ((∀ x, pow 2.71 x ≠ 0) →
      -1 < GetSeconds s.m_curRtt * (specDMax s / (specD s + specDMax s)) * specEre pow s tcb →
      GetSeconds s.m_curRtt * (specDMax s / (specD s + specDMax s)) * specEre pow s tcb <
        4294967296 →
      -1 < s.m_currentBW * GetSeconds s.m_minRtt →
      s.m_currentBW * GetSeconds s.m_minRtt < 4294967296 →
      ∃ r, s.GetSsThresh id pow tcb b = some r) := by
  constructor
  · intro rnd r hr
    obtain ⟨o, ho⟩ := GetSsThresh_branch rnd pow s tcb b
    rw [ho] at hr
    cases hraw : o with
    | none => simp [hraw] at hr
    | some ss =>
      rw [hraw] at hr
      simp only [Option.some_bind] at hr
      by_cases hc : tcb.m_cWnd > ss ∧ ss ≠ 0
      · rw [if_pos hc] at hr
        cases hr
        exact ⟨Or.inl ⟨Nat.pos_of_ne_zero hc.2, hc.1⟩, hc.2⟩
      · rw [if_neg hc] at hr
        cases hfb : toUint32 (rnd (rnd s.m_currentBW * rnd (GetSeconds s.m_minRtt))) with
        | none => simp [hfb] at hr
        | some fb =>
          rw [hfb] at hr
          simp only [Option.some_bind, Option.some.injEq] at hr
          rw [Nat.mod_eq_of_lt hseg2] at hr
          have h2 : 2 * tcb.m_segmentSize ≤ r := by
            rw [← hr]
            exact le_max_left _ _
          exact ⟨Or.inr h2, by omega⟩
  · intro hpow v0 v1 f0 f1
    have hden2 : specD s + specDMax s ≠ 0 := by
      rw [← GetSsThreshDMax_eq, ← GetSsThreshD_eq]
      exact hden
    rw [GetSsThresh_eq pow s tcb b (ne_of_gt hcur) hden2 hpow, toUint32_of_gt _ v0 v1,
      toUint32_of_gt _ f0 f1]
    simp only [Option.some_bind]
    split_ifs
    · exact ⟨_, rfl⟩
    · exact ⟨_, rfl⟩

theorem GetSsThresh_never_zero_witness :
    0 < megabyteState.m_curRtt ∧
      megabyteState.GetSsThreshD + megabyteState.GetSsThreshDMax ≠ 0 ∧
      1 ≤ (1460 : Nat) ∧ 2 * (1460 : Nat) < 4294967296 ∧
      (∀ rnd r, megabyteState.GetSsThresh rnd powFloor ⟨1460, 14600⟩ 0 = some r →
        ((0 < r ∧ r < 14600) ∨ 2 * 1460 ≤ r) ∧ r ≠ 0) ∧
      megabyteState.GetSsThresh id powFloor ⟨1460, 14600⟩ 0 = some 100000 ∧
      megabyteState.GetSsThresh roundDouble powDouble ⟨1460, 14600⟩ 0 = some 100000 := by
  have h2 : megabyteState.GetSsThreshD + megabyteState.GetSsThreshDMax ≠ 0 := by
    norm_num [TcpWestwood.GetSsThreshD, TcpWestwood.GetSsThreshDMax, megabyteState, GetSeconds]
  exact ⟨by decide, h2, by decide, by decide,
    (GetSsThresh_never_zero powFloor megabyteState ⟨1460, 14600⟩ 0 (by decide) h2
      (by decide) (by decide)).1, by decide!, by decide!⟩

end TcpWestwoodBBE
